import Mathlib

/-!
Verification of the `zapybase-core` vector database engine.

The Rust sources under `crates/zapybase-core/src` are shallowly embedded:

* `f32` values are modelled as exact rationals `ℚ`; the `f32::MAX` sentinel that the
  HNSW search uses for a missing vector is modelled as `⊤` in `WithTop ℚ` (it is only
  ever compared, never used arithmetically).
* Rust's `BinaryHeap` pop order on equal-distance candidates is unspecified; the model
  pops the first minimal (resp. maximal) element of the list.  None of the verified
  statements depend on the tie order of the heaps.
* `Vec` / `HashMap` become `List` / association lists; interior mutability
  (`RwLock`) disappears because every embedded operation is sequential.
* fallible operations return `Except Error` (and mutating operations additionally
  return the post state, so that "state unchanged" is expressible).
* The modules `distance.rs`, `types.rs` and `quantization.rs` of this crate are not
  in the source snapshot; the definitions derived from them are marked
  "Modelled from the spec" and follow §4.1/§4.2 of the specification.
-/

/-- Distance values as seen by the HNSW search: a rational, or `⊤` standing for the
`f32::MAX` fallback used when a vector is missing from storage. -/
abbrev DistQ := WithTop ℚ

/-- Coerce the optional distance produced by
`storage.get_vector_data(id).map(|v| metric.distance(q, &v))` into a `DistQ`,
mirroring `.unwrap_or(f32::MAX)`. -/
def toDist : Option ℚ → DistQ
  | none => ⊤
  | some q => (q : DistQ)

/-- One step of the stable ascending sort: place `x` behind every element whose key
(second component) is `≤` the key of `x`, i.e. at the first position whose key is
strictly greater.  This is exactly where a stable sort puts a later-coming element. -/
def insAfter {ι β : Type} [LinearOrder β] (x : ι × β) : List (ι × β) → List (ι × β)
  | [] => [x]
  | y :: ys => if x.2 < y.2 then x :: y :: ys else y :: insAfter x ys

/-- Model of Rust's
`sort_by(|a, b| a.1.partial_cmp(&b.1).unwrap_or(Ordering::Equal))`: an ascending
stable sort on the second component.  (Rust's `sort_by` is stable, and a stable sort
is uniquely determined by the comparator, so insertion sort is a faithful model.) -/
def sortByDist {ι β : Type} [LinearOrder β] (l : List (ι × β)) : List (ι × β) :=
  l.foldl (fun acc x => insAfter x acc) []

/-! ## Error type (`error.rs`) -/

/-- The error taxonomy of `error.rs` (payloads of `Io` and the string-carrying
variants are kept as plain strings). -/
inductive Error
  | DimensionMismatch (expected got : Nat)
  | VectorNotFound (id : String)
  | DuplicateId (id : String)
  | EmptyIndex
  | InvalidConfig (msg : String)
  | Storage (msg : String)
  | CollectionNotFound (name : String)
  | DuplicateCollection (name : String)
  | Io (msg : String)
  deriving DecidableEq, Repr

/-! ## Distance metrics

`distance.rs` is not part of the source snapshot. -/

/-- Modelled from the spec: the missing `distance.rs` defines `DistanceMetric` with
`distance(a, b) -> f32`.  §4.1 fixes three metrics: Cosine `1 - a·b/(‖a‖·‖b‖)`,
Euclidean squared `Σ(aᵢ-bᵢ)²` and DotProduct `-(a·b)`.  Cosine involves a real
square root, which has no exact rational counterpart, so a metric is modelled by
its distance function; the two rational metrics are provided below as concrete
instances.  All claims quantify over the metric or use a rational one. -/
structure DistanceMetric where
  distance : List ℚ → List ℚ → ℚ

/-- Modelled from the spec: `Σ(aᵢ-bᵢ)²` (a missing `distance.rs` kernel, §4.1). -/
def euclideanSq : DistanceMetric :=
  ⟨fun a b => ((List.zipWith (fun x y => (x - y) ^ 2) a b)).sum⟩

/-- Modelled from the spec: `-(a·b)` (a missing `distance.rs` kernel, §4.1). -/
def dotProductMetric : DistanceMetric :=
  ⟨fun a b => -((List.zipWith (· * ·) a b).sum)⟩

/-! ## ID maps

`types.rs` is missing from the snapshot; per the spec (§3) `VectorId` is an opaque
user string and `InternalId` a dense index, so they are modelled as `String` and
`Nat`.  The `HashMap<VectorId, InternalId>` becomes an association list (the insert
sites guard against duplicate keys, so prepending is a faithful insert). -/

/-- Lookup in the association-list model of `HashMap<VectorId, InternalId>`. -/
def alistFind (k : String) : List (String × Nat) → Option Nat
  | [] => none
  | (k', v) :: rest => if k' = k then some v else alistFind k rest

/-! ## Plain storage (`storage.rs`)

`storage.rs` in the snapshot has a two-argument `insert` and no metadata map, while
`lib.rs` calls `storage.insert(id, vector, metadata)` and `storage.get_metadata`;
the snapshot mixes two versions of the crate.  The metadata side map (present in
`quantized_storage.rs` and required by `lib.rs`) is added here, marked as modelled
from the spec. -/

/-- `VectorStorage` (storage.rs): flat `D·N` float buffer plus the two ID maps.
The `metadata` field is Modelled from the spec: the internal-ID → metadata side map
(§2 item 8) that the `lib.rs` call sites require but that is absent from the
snapshot's `storage.rs`.  Metadata values (`serde_json::Value`) are opaque to the
core and modelled as strings. -/
structure VectorStorage where
  dimensions : Nat
  vectors : List ℚ
  id_to_internal : List (String × Nat)
  internal_to_id : List String
  metadata : List (Nat × String)
  deriving DecidableEq, Repr

/-- `VectorStorage::new`. -/
def VectorStorage.new (dimensions : Nat) : VectorStorage :=
  ⟨dimensions, [], [], [], []⟩

/-- `VectorStorage::insert`: dimension guard, duplicate guard, then append the
vector, extend both ID maps and (Modelled from the spec) record the metadata.
Returns the post state together with the result, so failure visibly leaves the
state unchanged. -/
def VectorStorage.insert (s : VectorStorage) (id : String) (vector : List ℚ)
    (meta : Option String) : VectorStorage × Except Error Nat :=
  if vector.length ≠ s.dimensions then
    (s, .error (.DimensionMismatch s.dimensions vector.length))
  else if (alistFind id s.id_to_internal).isSome then
    (s, .error (.DuplicateId id))
  else
    let internal_id := s.internal_to_id.length
    ({ s with
        vectors := s.vectors ++ vector
        id_to_internal := (id, internal_id) :: s.id_to_internal
        internal_to_id := s.internal_to_id ++ [id]
        metadata :=
          match meta with
          | some m => (internal_id, m) :: s.metadata
          | none => s.metadata },
      .ok internal_id)

/-- `VectorStorage::get`: the row slice `[i·D, (i+1)·D)` when it lies inside the
flat buffer. -/
def VectorStorage.get (s : VectorStorage) (internal_id : Nat) : Option (List ℚ) :=
  let start := internal_id * s.dimensions
  if start + s.dimensions ≤ s.vectors.length then
    some ((s.vectors.drop start).take s.dimensions)
  else
    none

/-- `VectorStorage::get_vector_data` (delegates to `get`). -/
def VectorStorage.get_vector_data (s : VectorStorage) (internal_id : Nat) : Option (List ℚ) :=
  s.get internal_id

/-- `VectorStorage::get_internal_id`. -/
def VectorStorage.get_internal_id (s : VectorStorage) (id : String) : Option Nat :=
  alistFind id s.id_to_internal

/-- `VectorStorage::get_external_id`. -/
def VectorStorage.get_external_id (s : VectorStorage) (internal_id : Nat) : Option String :=
  s.internal_to_id.get? internal_id

/-- Modelled from the spec: `VectorStorage::get_metadata`, called by `lib.rs`
but absent from the snapshot's `storage.rs`; looks up the side map. -/
def VectorStorage.get_metadata (s : VectorStorage) (internal_id : Nat) : Option String :=
  (s.metadata.find? (fun p => p.1 = internal_id)).map Prod.snd

/-- `VectorStorage::len`. -/
def VectorStorage.len (s : VectorStorage) : Nat :=
  s.internal_to_id.length

/-- `VectorStorage::all_internal_ids`. -/
def VectorStorage.all_internal_ids (s : VectorStorage) : List Nat :=
  List.range s.internal_to_id.length

/-! ## HNSW data model (`hnsw.rs`) -/

/-- `HnswConfig` (hnsw.rs).  The `ml` normalization factor is an `f64` used only by
`random_level`, whose RNG draw is modelled as an explicit level argument to
`insert`, so `ml` is omitted. -/
structure HnswConfig where
  m : Nat
  m0 : Nat
  ef_construction : Nat
  ef_search : Nat
  deriving DecidableEq, Repr

/-- `HnswConfig::default` (m = 16, m0 = 2·m, ef_construction = 200, ef_search = 100). -/
def HnswConfig.default : HnswConfig := ⟨16, 32, 200, 100⟩

/-- `HnswNode` (hnsw.rs): internal id, top layer, and one neighbor list per layer. -/
structure HnswNode where
  id : Nat
  max_layer : Nat
  neighbors : List (List Nat)
  deriving DecidableEq, Repr

/-- `HnswNode::new`: `max_layer + 1` empty neighbor lists. -/
def HnswNode.new (id max_layer : Nat) : HnswNode :=
  ⟨id, max_layer, List.replicate (max_layer + 1) []⟩

/-- The mutable part of `HnswIndex`: the node arena, the entry point and the
graph's maximum layer. -/
structure HnswState where
  nodes : List HnswNode
  entry_point : Option Nat
  max_layer : Nat
  deriving DecidableEq, Repr

/-- `HnswIndex::new`: empty arena, no entry point, max layer 0. -/
def HnswState.new : HnswState := ⟨[], none, 0⟩

/-! ## Quantization codecs

`quantization.rs` is missing from the snapshot; SQ8 and Binary are modelled from
spec §4.2.  The quantizer objects (`SQ8Quantizer::new(dimensions)` etc.) carry only
the dimension, so they are modelled as free functions of the dimension. -/

/-- `QuantizationType` (quantization.rs, re-exported by `lib.rs`). -/
inductive QuantizationType
  | None
  | SQ8
  | Binary
  deriving DecidableEq, Repr

/-- Minimum of the components of a vector (0 for the empty vector). -/
def listMin : List ℚ → ℚ
  | [] => 0
  | x :: xs => xs.foldl min x

/-- Maximum of the components of a vector (0 for the empty vector). -/
def listMax : List ℚ → ℚ
  | [] => 0
  | x :: xs => xs.foldl max x

/-- Clamp an integer to `[0, 255]` and view it as a byte value. -/
def clampByte (z : ℤ) : Nat :=
  (min 255 (max 0 z)).toNat

/-- Modelled from the spec (§4.2): SQ8 encode — per-vector `min`/`max`, each
component encoded as `round(255·(x-min)/(max-min))` clamped to `[0,255]`.
A constant vector (`max = min`) would divide `0/0` in `f32`; the model encodes it
as code 0 (no claim exercises this case).  Returns the codes and the per-vector
`(min, max)` metadata (`SQ8Metadata`). -/
def sq8Quantize (v : List ℚ) : List Nat × (ℚ × ℚ) :=
  let mn := listMin v
  let mx := listMax v
  (v.map (fun x => if mx = mn then 0 else clampByte (round (255 * (x - mn) / (mx - mn)))), (mn, mx))

/-- Modelled from the spec (§4.2): SQ8 decode by the inverse affine map. -/
def sq8Decode (codes : List Nat) (mn mx : ℚ) : List ℚ :=
  codes.map (fun c => mn + c * (mx - mn) / 255)

/-- Modelled from the spec (§4.2): asymmetric distance — the stored vector is
decoded on the fly and compared against the raw `f32` query under the metric. -/
def sq8AsymmetricDistance (q : List ℚ) (codes : List Nat) (meta : ℚ × ℚ)
    (metric : DistanceMetric) : ℚ :=
  metric.distance q (sq8Decode codes meta.1 meta.2)

/-- `BinaryQuantizer::byte_size`: `⌈D/8⌉` bytes per vector. -/
def binaryByteSize (dimensions : Nat) : Nat :=
  (dimensions + 7) / 8

/-- Modelled from the spec (§4.2): Binary encode — one sign bit per component
(`≥ 0 → 1`), padded with zero bits to `⌈D/8⌉` bytes.  The packed bytes are
modelled as a flat list of `8·⌈D/8⌉` bits. -/
def binaryQuantize (dimensions : Nat) (v : List ℚ) : List Bool :=
  (List.range (binaryByteSize dimensions * 8)).map
    (fun i => match v.get? i with
      | some x => decide (0 ≤ x)
      | none => false)

/-- Modelled from the spec (§4.2): Hamming distance on the packed bits. -/
def hammingDistance (a b : List Bool) : Nat :=
  (List.zipWith (fun x y => x != y) a b).count true

/-- Modelled from the spec (§4.2): map a Hamming distance back to a pseudo-cosine
in `[0,1]` as `hamming / D`. -/
def hammingToCosine (dimensions : Nat) (hamming : Nat) : ℚ :=
  (hamming : ℚ) / (dimensions : ℚ)

/-! ## Quantized storage (`quantized_storage.rs`) -/

/-- `QuantizedStorage`: quantized payloads (flat), per-vector SQ8 metadata,
optional originals (flat), both ID maps and the metadata side map.  The
`sq8_quantizer` / `binary_quantizer` fields carry only the dimension and are
modelled by the free codec functions above. -/
structure QuantizedStorage where
  dimensions : Nat
  quantization : QuantizationType
  sq8_vectors : List Nat
  sq8_metadata : List (ℚ × ℚ)
  binary_vectors : List Bool
  original_vectors : Option (List ℚ)
  keep_originals : Bool
  id_to_internal : List (String × Nat)
  internal_to_id : List String
  metadata : List (Nat × String)
  deriving DecidableEq, Repr

/-- `QuantizedStorage::new`: for `None` quantization originals are always kept. -/
def QuantizedStorage.new (dimensions : Nat) (quantization : QuantizationType)
    (keep_originals : Bool) : QuantizedStorage :=
  { dimensions := dimensions
    quantization := quantization
    sq8_vectors := []
    sq8_metadata := []
    binary_vectors := []
    original_vectors :=
      if keep_originals ∨ quantization = QuantizationType.None then some [] else none
    keep_originals := keep_originals
    id_to_internal := []
    internal_to_id := []
    metadata := [] }

/-- `QuantizedStorage::insert`: dimension guard, duplicate guard, store the
quantized payload (by quantization type), optionally the original, then extend the
ID maps and the metadata map. -/
def QuantizedStorage.insert (s : QuantizedStorage) (id : String) (vector : List ℚ)
    (meta : Option String) : QuantizedStorage × Except Error Nat :=
  if vector.length ≠ s.dimensions then
    (s, .error (.DimensionMismatch s.dimensions vector.length))
  else if (alistFind id s.id_to_internal).isSome then
    (s, .error (.DuplicateId id))
  else
    let internal_id := s.internal_to_id.length
    let s :=
      match s.quantization with
      | QuantizationType.None =>
        { s with original_vectors := s.original_vectors.map (· ++ vector) }
      | QuantizationType.SQ8 =>
        let q := sq8Quantize vector
        { s with
            sq8_vectors := s.sq8_vectors ++ q.1
            sq8_metadata := s.sq8_metadata ++ [q.2] }
      | QuantizationType.Binary =>
        { s with binary_vectors := s.binary_vectors ++ binaryQuantize s.dimensions vector }
    let s :=
      if s.keep_originals ∧ s.quantization ≠ QuantizationType.None then
        { s with original_vectors := s.original_vectors.map (· ++ vector) }
      else s
    let s :=
      { s with
          id_to_internal := (id, internal_id) :: s.id_to_internal
          internal_to_id := s.internal_to_id ++ [id]
          metadata :=
            match meta with
            | some m => (internal_id, m) :: s.metadata
            | none => s.metadata }
    (s, .ok internal_id)

/-- `QuantizedStorage::distance`: distance from a raw query to the stored vector
`internal_id`, computed on the stored representation. -/
def QuantizedStorage.distance (s : QuantizedStorage) (query : List ℚ)
    (internal_id : Nat) (metric : DistanceMetric) : Option ℚ :=
  match s.quantization with
  | QuantizationType.None =>
    match s.original_vectors with
    | some vecs =>
      let start := internal_id * s.dimensions
      if start + s.dimensions ≤ vecs.length then
        some (metric.distance query ((vecs.drop start).take s.dimensions))
      else none
    | none => none
  | QuantizationType.SQ8 =>
    if h : internal_id < s.sq8_metadata.length then
      let start := internal_id * s.dimensions
      if start + s.dimensions ≤ s.sq8_vectors.length then
        some (sq8AsymmetricDistance query ((s.sq8_vectors.drop start).take s.dimensions)
          (s.sq8_metadata.get ⟨internal_id, h⟩) metric)
      else none
    else none
  | QuantizationType.Binary =>
    let bits := binaryByteSize s.dimensions * 8
    let start := internal_id * bits
    if start + bits ≤ s.binary_vectors.length then
      some (hammingToCosine s.dimensions
        (hammingDistance (binaryQuantize s.dimensions query)
          ((s.binary_vectors.drop start).take bits)))
    else none

/-- `QuantizedStorage::get_original`: row slice of the originals buffer. -/
def QuantizedStorage.get_original (s : QuantizedStorage) (internal_id : Nat) :
    Option (List ℚ) :=
  match s.original_vectors with
  | some vecs =>
    let start := internal_id * s.dimensions
    if start + s.dimensions ≤ vecs.length then
      some ((vecs.drop start).take s.dimensions)
    else none
  | none => none

/-- `QuantizedStorage::get_external_id`. -/
def QuantizedStorage.get_external_id (s : QuantizedStorage) (internal_id : Nat) :
    Option String :=
  s.internal_to_id.get? internal_id

/-- `QuantizedStorage::get_internal_id` (the read side of the external→internal map;
`quantized_storage.rs` exposes the map through `insert`'s duplicate check). -/
def QuantizedStorage.get_internal_id (s : QuantizedStorage) (id : String) : Option Nat :=
  alistFind id s.id_to_internal

/-- `QuantizedStorage::all_internal_ids`. -/
def QuantizedStorage.all_internal_ids (s : QuantizedStorage) : List Nat :=
  List.range s.internal_to_id.length

/-- `QuantizedStorage::len`. -/
def QuantizedStorage.len (s : QuantizedStorage) : Nat :=
  s.internal_to_id.length

/-- `QuantizedStorage::is_empty`. -/
def QuantizedStorage.is_empty (s : QuantizedStorage) : Bool :=
  s.len = 0

/-! ## HNSW search (`hnsw.rs`)

The algorithms are parameterized by `dq : Nat → Option ℚ`, the per-id
distance-to-query function `storage.get_vector_data(id).map(|v| metric.distance(q, v))`:
`none` is a missing vector (skipped for neighbors, `f32::MAX` for the entry). -/

/-- The inner `for` loop of `search_layer_single`: walk the neighbor list, moving to
any neighbor strictly closer than the current best, recording whether anything
changed. -/
def greedyFold (dq : Nat → Option ℚ) : List Nat → Nat → DistQ → Bool → Nat × DistQ × Bool
  | [], cur, curDist, changed => (cur, curDist, changed)
  | n :: rest, cur, curDist, changed =>
    match dq n with
    | none => greedyFold dq rest cur curDist changed
    | some q =>
      if (q : DistQ) < curDist then greedyFold dq rest n (q : DistQ) true
      else greedyFold dq rest cur curDist changed

/-- The outer `loop` of `search_layer_single`, with fuel: one pass over the current
node's layer-`layer` neighbors; stop when no neighbor improved.  Every productive
iteration strictly decreases the current distance, so `nodes.length + 1` fuel is
never exhausted in states reachable through the API (fuel exhaustion returns the
current node, like the `break`). -/
def searchLayerSingleLoop (nodes : List HnswNode) (dq : Nat → Option ℚ) (layer : Nat) :
    Nat → Nat → DistQ → Nat
  | 0, cur, _ => cur
  | fuel + 1, cur, curDist =>
    let step : Nat × DistQ × Bool :=
      match nodes.get? cur with
      | none => (cur, curDist, false)
      | some node =>
        if layer ≤ node.max_layer then
          greedyFold dq (node.neighbors.getD layer []) cur curDist false
        else (cur, curDist, false)
    if step.2.2 then searchLayerSingleLoop nodes dq layer fuel step.1 step.2.1
    else step.1

/-- `HnswIndex::search_layer_single`: greedy descent inside one layer from `entry`. -/
def searchLayerSingle (nodes : List HnswNode) (dq : Nat → Option ℚ)
    (entry layer : Nat) : Nat :=
  searchLayerSingleLoop nodes dq layer (nodes.length + 1) entry (toDist (dq entry))

/-- State of `search_layer`: the visited set, the candidate min-heap and the
results max-heap, both heaps as plain lists. -/
structure SLState where
  visited : List Nat
  cands : List (Nat × DistQ)
  results : List (Nat × DistQ)

/-- `BinaryHeap::pop` of the candidate min-heap: remove the first element of
minimal distance.  (Rust's heap does not specify which equal-distance element is
popped; no verified statement depends on the choice.) -/
def popMin : List (Nat × DistQ) → Option ((Nat × DistQ) × List (Nat × DistQ))
  | [] => none
  | x :: xs =>
    match popMin xs with
    | none => some (x, [])
    | some (m, rest) => if x.2 ≤ m.2 then some (x, xs) else some (m, x :: rest)

/-- `BinaryHeap::pop` of the results max-heap: remove the first element of maximal
distance. -/
def popMax : List (Nat × DistQ) → Option ((Nat × DistQ) × List (Nat × DistQ))
  | [] => none
  | x :: xs =>
    match popMax xs with
    | none => some (x, [])
    | some (m, rest) => if m.2 ≤ x.2 then some (x, xs) else some (m, x :: rest)

/-- `results.peek().map(|c| c.distance).unwrap_or(f32::MAX)`: the largest distance
in the results heap, `⊤` when empty. -/
def peekMaxD : List (Nat × DistQ) → DistQ
  | [] => ⊤
  | x :: xs => xs.foldl (fun a p => max a p.2) x.2

/-- Visiting one neighbor in `search_layer`: mark visited (skip if already), skip
ids without a vector, and push onto both heaps when closer than the current
furthest result or while the results heap is below `ef`; then evict the furthest
result if the heap overflows `ef`. -/
def visitNeighbor (dq : Nat → Option ℚ) (ef : Nat) (st : SLState) (n : Nat) : SLState :=
  if n ∈ st.visited then st
  else
    let st := { st with visited := n :: st.visited }
    match dq n with
    | none => st
    | some q =>
      let dist : DistQ := (q : DistQ)
      let furthest := peekMaxD st.results
      if dist < furthest ∨ st.results.length < ef then
        let st := { st with
          cands := (n, dist) :: st.cands
          results := (n, dist) :: st.results }
        if ef < st.results.length then
          match popMax st.results with
          | none => st
          | some (_, rest) => { st with results := rest }
        else st
      else st

/-- The neighbor `for` loop of `search_layer`. -/
def expandNeighbors (dq : Nat → Option ℚ) (ef : Nat) (ns : List Nat) (st : SLState) : SLState :=
  ns.foldl (visitNeighbor dq ef) st

/-- The `while let Some(current) = candidates.pop()` loop of `search_layer`, with
fuel.  Each iteration pops one candidate, and every push is guarded by a fresh
insertion into the visited set, so `nodes.length + (total neighbor entries) + 2`
fuel is never exhausted (exhaustion returns the current results, like the
termination break). -/
def searchLayerLoop (nodes : List HnswNode) (dq : Nat → Option ℚ) (ef layer : Nat) :
    Nat → SLState → List (Nat × DistQ)
  | 0, st => st.results
  | fuel + 1, st =>
    match popMin st.cands with
    | none => st.results
    | some (current, rest) =>
      if peekMaxD st.results < current.2 then st.results
      else
        let st := { st with cands := rest }
        let st :=
          match nodes.get? current.1 with
          | none => st
          | some node =>
            if layer ≤ node.max_layer then
              expandNeighbors dq ef (node.neighbors.getD layer []) st
            else st
        searchLayerLoop nodes dq ef layer fuel st

/-- Total number of neighbor-list entries in the arena (used to size the fuel). -/
def totalNeighborCount (nodes : List HnswNode) : Nat :=
  (nodes.map (fun nd => (nd.neighbors.map List.length).sum)).sum

/-- The contents of the results heap when `search_layer` terminates (before the
final sort). -/
def searchLayerRaw (nodes : List HnswNode) (dq : Nat → Option ℚ)
    (entry ef layer : Nat) : List (Nat × DistQ) :=
  let d0 := toDist (dq entry)
  searchLayerLoop nodes dq ef layer (nodes.length + totalNeighborCount nodes + 2)
    ⟨[entry], [(entry, d0)], [(entry, d0)]⟩

/-- `HnswIndex::search_layer`: the bounded best-first search, results sorted
ascending by distance. -/
def searchLayer (nodes : List HnswNode) (dq : Nat → Option ℚ)
    (entry ef layer : Nat) : List (Nat × DistQ) :=
  sortByDist (searchLayerRaw nodes dq entry ef layer)

/-- Greedy descent over `cnt` layers starting at layer `top` and going down
(`for layer in (lo..=top).rev()` with `cnt = top - lo + 1` iterations). -/
def descendLayers (nodes : List HnswNode) (dq : Nat → Option ℚ) :
    Nat → Nat → Nat → Nat
  | _, 0, ep => ep
  | top, cnt + 1, ep =>
    descendLayers nodes dq (top - 1) cnt (searchLayerSingle nodes dq ep top)

/-- `HnswIndex::search`: descend from the top layer to layer 1, then run the
layer-0 search with `ef = max(ef_search, k)` and return the top `k`. -/
def hnswSearch (cfg : HnswConfig) (st : HnswState) (dq : Nat → Option ℚ) (k : Nat) :
    Except Error (List (Nat × DistQ)) :=
  match st.entry_point with
  | none => .error .EmptyIndex
  | some ep =>
    let ep0 := descendLayers st.nodes dq st.max_layer st.max_layer ep
    let ef := max cfg.ef_search k
    .ok ((searchLayer st.nodes dq ep0 ef 0).take k)

/-! ## HNSW insert (`hnsw.rs`) -/

/-- Overwrite the layer-`layer` neighbor list of node `idx`
(`nodes[idx].neighbors[layer] = lst`).  Out-of-bounds indices leave the arena
unchanged (Rust would panic; unreachable through the API). -/
def setNodeNeighbors (nodes : List HnswNode) (idx layer : Nat) (lst : List Nat) :
    List HnswNode :=
  match nodes.get? idx with
  | none => nodes
  | some nd => nodes.set idx { nd with neighbors := nd.neighbors.set layer lst }

/-- Add the reverse edge `internal_id` to neighbor `nid` at `layer` and, when the
list overflows its cap and the neighbor's vector is available, prune to the
`cap` ids closest to the neighbor's own vector. -/
def addReverseEdge (cfg : HnswConfig) (metric : DistanceMetric)
    (storage : Nat → Option (List ℚ)) (nodes : List HnswNode)
    (internal_id layer nid : Nat) : List HnswNode :=
  match nodes.get? nid with
  | none => nodes
  | some nd =>
    if layer ≤ nd.max_layer then
      let newList := (nd.neighbors.getD layer []) ++ [internal_id]
      let maxConn := if layer = 0 then cfg.m0 else cfg.m
      let pruned :=
        if maxConn < newList.length then
          match storage nid with
          | none => newList
          | some nv =>
            ((sortByDist (newList.filterMap
                (fun j => (storage j).map (fun vj => (j, metric.distance nv vj))))).take
              maxConn).map Prod.fst
        else newList
      nodes.set nid { nd with neighbors := nd.neighbors.set layer pruned }
    else nodes

/-- One iteration of the `for layer in (0..=start_layer).rev()` loop of
`HnswIndex::insert`: layer search with `ef_construction`, select the `M` (or `M0`)
closest as neighbors, connect the new node, add reverse edges with pruning, and
move the entry point to the closest selected candidate. -/
def insertAtLayer (cfg : HnswConfig) (metric : DistanceMetric)
    (storage : Nat → Option (List ℚ)) (dq : Nat → Option ℚ) (internal_id : Nat)
    (acc : List HnswNode × Nat) (layer : Nat) : List HnswNode × Nat :=
  let nodes := acc.1
  let current_ep := acc.2
  let found := searchLayer nodes dq current_ep cfg.ef_construction layer
  let m := if layer = 0 then cfg.m0 else cfg.m
  let selected := found.take m
  let nodes := setNodeNeighbors nodes internal_id layer (selected.map Prod.fst)
  let nodes := selected.foldl
    (fun nds c => addReverseEdge cfg metric storage nds internal_id layer c.1) nodes
  match selected with
  | [] => (nodes, current_ep)
  | c :: _ => (nodes, c.1)

/-- `HnswIndex::insert`.  The `random_level()` draw is passed in as `node_level`;
`storage` is the `VectorStorageTrait` view and `vector` the inserted vector.  The
new node is pushed first; the first insert just installs the entry point;
otherwise: greedy descent from the top layer to `node_level + 1`, then per-layer
connection from `min(node_level, max_layer)` down to 0, finally the entry point is
replaced if the new node tops the graph. -/
def hnswInsert (cfg : HnswConfig) (metric : DistanceMetric)
    (storage : Nat → Option (List ℚ)) (st : HnswState)
    (internal_id : Nat) (vector : List ℚ) (node_level : Nat) : HnswState :=
  let nodes := st.nodes ++ [HnswNode.new internal_id node_level]
  match st.entry_point with
  | none => ⟨nodes, some internal_id, node_level⟩
  | some ep =>
    let current_max_layer := st.max_layer
    let dq : Nat → Option ℚ := fun i => (storage i).map (metric.distance vector)
    let current_ep :=
      descendLayers nodes dq current_max_layer (current_max_layer - node_level) ep
    let start_layer := min node_level current_max_layer
    let stepped := ((List.range (start_layer + 1)).reverse).foldl
      (insertAtLayer cfg metric storage dq internal_id) (nodes, current_ep)
    if current_max_layer < node_level then
      ⟨stepped.1, some internal_id, node_level⟩
    else
      ⟨stepped.1, st.entry_point, st.max_layer⟩

/-! ## The unquantized database (`lib.rs`) -/

/-- `Config` (lib.rs).  `max_vectors` is declared but never consulted by the
embedded operations, and is kept for completeness. -/
structure Config where
  dimensions : Nat
  distance_metric : DistanceMetric
  hnsw : HnswConfig
  max_vectors : Nat

/-- `VectorDb` (lib.rs): configuration, plain storage and the HNSW index. -/
structure VectorDb where
  config : Config
  storage : VectorStorage
  index : HnswState

/-- `VectorDb::new`. -/
def VectorDb.new (config : Config) : VectorDb :=
  ⟨config, VectorStorage.new config.dimensions, HnswState.new⟩

/-- `VectorDb::insert`: dimension guard, then `storage.insert` (which assigns the
internal id), then `index.insert` reading vectors back through the storage.  The
`random_level()` draw inside `index.insert` is the explicit `level` argument.
Returns the post state paired with the result; on error the state is returned
unchanged. -/
def VectorDb.insert (db : VectorDb) (id : String) (vector : List ℚ)
    (meta : Option String) (level : Nat) : VectorDb × Except Error Unit :=
  if vector.length ≠ db.config.dimensions then
    (db, .error (.DimensionMismatch db.config.dimensions vector.length))
  else
    match db.storage.insert id vector meta with
    | (s', .error e) => ({ db with storage := s' }, .error e)
    | (s', .ok internal_id) =>
      ({ db with
          storage := s'
          index := hnswInsert db.config.hnsw db.config.distance_metric
            s'.get_vector_data db.index internal_id vector level },
        .ok ())

/-- `VectorDb::search`: dimension guard, index search, then map internal ids back
to external ids and metadata (ids without an external mapping are dropped). -/
def VectorDb.search (db : VectorDb) (query : List ℚ) (k : Nat) :
    Except Error (List (String × DistQ × Option String)) :=
  if query.length ≠ db.config.dimensions then
    .error (.DimensionMismatch db.config.dimensions query.length)
  else
    (hnswSearch db.config.hnsw db.index
        (fun i => (db.storage.get_vector_data i).map
          (db.config.distance_metric.distance query)) k).map
      (fun results => results.filterMap
        (fun p => (db.storage.get_external_id p.1).map
          (fun e => (e, p.2, db.storage.get_metadata p.1))))

/-- `VectorDb::len`. -/
def VectorDb.len (db : VectorDb) : Nat := db.storage.len

/-! ## The quantized database (`lib.rs`) -/

/-- `QuantizedConfig` (lib.rs). -/
structure QuantizedConfig where
  dimensions : Nat
  distance_metric : DistanceMetric
  hnsw : HnswConfig
  quantization : QuantizationType
  keep_originals : Bool
  rerank_multiplier : Nat

/-- `QuantizedVectorDb` (lib.rs). -/
structure QuantizedVectorDb where
  config : QuantizedConfig
  storage : QuantizedStorage

/-- `QuantizedVectorDb::new`. -/
def QuantizedVectorDb.new (config : QuantizedConfig) : QuantizedVectorDb :=
  ⟨config, QuantizedStorage.new config.dimensions config.quantization config.keep_originals⟩

/-- `QuantizedVectorDb::insert`: dimension guard, then `storage.insert` (the call
site passes no metadata). -/
def QuantizedVectorDb.insert (db : QuantizedVectorDb) (id : String) (vector : List ℚ) :
    QuantizedVectorDb × Except Error Unit :=
  if vector.length ≠ db.config.dimensions then
    (db, .error (.DimensionMismatch db.config.dimensions vector.length))
  else
    match db.storage.insert id vector none with
    | (s', .error e) => ({ db with storage := s' }, .error e)
    | (s', .ok _) => ({ db with storage := s' }, .ok ())

/-- The brute-force candidate list of `QuantizedVectorDb::search`: distance (on the
stored representation) to every stored vector, sorted ascending. -/
def quantizedCandidates (db : QuantizedVectorDb) (query : List ℚ) : List (Nat × ℚ) :=
  sortByDist (db.storage.all_internal_ids.filterMap
    (fun id => (db.storage.distance query id db.config.distance_metric).map
      (fun dist => (id, dist))))

/-- The re-ranking stage of `QuantizedVectorDb::search`: recompute the exact metric
on the stored originals for the fetched candidates. -/
def rerankOnOriginals (db : QuantizedVectorDb) (query : List ℚ)
    (top : List (Nat × ℚ)) : List (Nat × ℚ) :=
  top.filterMap (fun p => (db.storage.get_original p.1).map
    (fun orig => (p.1, db.config.distance_metric.distance query orig)))

/-- The internal `(InternalId, f32)` result list of `QuantizedVectorDb::search`
(the value of its `results` binding): re-rank `k·rerank_multiplier` candidates on
the originals when enabled, otherwise truncate the candidate list to `k`. -/
def quantizedSearchResults (db : QuantizedVectorDb) (query : List ℚ) (k : Nat) :
    List (Nat × ℚ) :=
  let candidates := quantizedCandidates db query
  if db.config.keep_originals ∧ db.config.quantization ≠ QuantizationType.None then
    let fetch_count := k * db.config.rerank_multiplier
    (sortByDist (rerankOnOriginals db query (candidates.take fetch_count))).take k
  else
    candidates.take k

/-- `QuantizedVectorDb::search`: dimension guard, empty guard, then the brute-force
scan (with optional re-ranking) mapped back to external ids. -/
def QuantizedVectorDb.search (db : QuantizedVectorDb) (query : List ℚ) (k : Nat) :
    Except Error (List (String × ℚ)) :=
  if query.length ≠ db.config.dimensions then
    .error (.DimensionMismatch db.config.dimensions query.length)
  else if db.storage.is_empty then
    .error .EmptyIndex
  else
    .ok ((quantizedSearchResults db query k).filterMap
      (fun p => (db.storage.get_external_id p.1).map (fun e => (e, p.2))))

/-- `QuantizedVectorDb::len`. -/
def QuantizedVectorDb.len (db : QuantizedVectorDb) : Nat := db.storage.len

/-! ## Insert-sequence harnesses (for the sequence-shaped invariant claims) -/

/-- The storage view of a list of stored vectors: id `i` is row `i`. -/
def storeFn (vecs : List (List ℚ)) : Nat → Option (List ℚ) :=
  fun i => vecs.get? i

/-- A storage+index pair built by repeated inserts (the successful path of
`VectorDb::insert`): the storage assigns internal ids `0, 1, 2, …`. -/
structure RunState where
  vecs : List (List ℚ)
  hnsw : HnswState

/-- One successful `VectorDb::insert`: append the vector to storage (assigning the
next internal id) and then insert it into the index, which reads vectors back
through the storage. -/
def runInsertStep (cfg : HnswConfig) (metric : DistanceMetric) (rs : RunState)
    (inp : List ℚ × Nat) : RunState :=
  let internal_id := rs.vecs.length
  let vecs := rs.vecs ++ [inp.1]
  ⟨vecs, hnswInsert cfg metric (storeFn vecs) rs.hnsw internal_id inp.1 inp.2⟩

/-- Run a sequence of successful inserts (each input is a vector together with the
`random_level()` draw used for it) starting from the empty index. -/
def runInserts (cfg : HnswConfig) (metric : DistanceMetric)
    (inputs : List (List ℚ × Nat)) : RunState :=
  inputs.foldl (runInsertStep cfg metric) ⟨[], HnswState.new⟩

/-- The per-layer degree cap: `M0` at layer 0 and `M` above. -/
def degreeCap (cfg : HnswConfig) (layer : Nat) : Nat :=
  if layer = 0 then cfg.m0 else cfg.m

/-- Every id appearing in a neighbor list of the arena is below `n`. -/
def nbrsBounded (nodes : List HnswNode) (n : Nat) : Prop :=
  ∀ nd ∈ nodes, ∀ layer, ∀ j ∈ nd.neighbors.getD layer [], j < n

/-- Every node's neighbor list of the arena is within the cap at every layer. -/
def degsBounded (cfg : HnswConfig) (nodes : List HnswNode) : Prop :=
  ∀ nd ∈ nodes, ∀ layer, (nd.neighbors.getD layer []).length ≤ degreeCap cfg layer

/-- Every node's neighbor list is within the cap at every layer. -/
def degreesBounded (cfg : HnswConfig) (st : HnswState) : Prop :=
  degsBounded cfg st.nodes

/-- Every id stored in the graph (neighbor entries and the entry point) is below `n`. -/
def idsBounded (st : HnswState) (n : Nat) : Prop :=
  nbrsBounded st.nodes n ∧ (∀ e, st.entry_point = some e → e < n)

/-- The maximum node level of an arena. -/
def maxLevel (nodes : List HnswNode) : Nat :=
  (nodes.map HnswNode.max_layer).foldr max 0

/-- Sequences of successful `VectorStorage` inserts, starting from a given state
(failing inserts leave the state unchanged, exactly as the paired result returns
it). -/
def VectorStorage.applyInserts (s : VectorStorage)
    (ops : List (String × List ℚ × Option String)) : VectorStorage :=
  ops.foldl (fun st op => (st.insert op.1 op.2.1 op.2.2).1) s

/-- Sequences of successful `QuantizedStorage` inserts. -/
def QuantizedStorage.applyInserts (s : QuantizedStorage)
    (ops : List (String × List ℚ × Option String)) : QuantizedStorage :=
  ops.foldl (fun st op => (st.insert op.1 op.2.1 op.2.2).1) s

/-! ## Concrete states used by witnesses and counterexamples -/

/-- A 2-dimensional plain storage holding the single vector `("x", [1, 0])`. -/
def stX : VectorStorage := ((VectorStorage.new 2).insert "x" [1, 0] none).1

/-- A 2-dimensional SQ8 quantized storage holding the single vector `("x", [1, 0])`. -/
def qstX : QuantizedStorage :=
  ((QuantizedStorage.new 2 QuantizationType.SQ8 false).insert "x" [1, 0] none).1

/-- An empty 2-dimensional SQ8 quantized database. -/
def qdbEmpty : QuantizedVectorDb :=
  QuantizedVectorDb.new ⟨2, euclideanSq, HnswConfig.default, QuantizationType.SQ8, false, 3⟩

/-- A 3-dimensional SQ8 database with re-ranking (`keep_originals`,
`rerank_multiplier = 3`) under the DotProduct metric, holding
`("a", [0, 26/5, 20])` (internal id 0) and `("b", [0, 26/5, 10])` (internal id 1).
Both rows have the same exact dot-product distance to the query `[0, 1, 0]`, but
SQ8 rounds their middle components in opposite directions, so their quantized
distances differ. -/
def qdbTie : QuantizedVectorDb :=
  (((QuantizedVectorDb.new
      ⟨3, dotProductMetric, HnswConfig.default, QuantizationType.SQ8, true, 3⟩).insert
    "a" [0, 26/5, 20]).1.insert "b" [0, 26/5, 10]).1

/-- A one-node HNSW state (entry point 0 at layer 0). -/
def hnswOne : HnswState := ⟨[HnswNode.new 0 0], some 0, 0⟩

/-- An empty 2-dimensional plain database. -/
def vdbEmpty : VectorDb :=
  VectorDb.new ⟨2, euclideanSq, HnswConfig.default, 0⟩

/-- `j` occurs in some neighbor list of the arena. -/
def memNbr (nodes : List HnswNode) (j : Nat) : Prop :=
  ∃ nd ∈ nodes, ∃ layer, j ∈ nd.neighbors.getD layer []

/-- The entry-point invariant of the HNSW graph: an entry point exists iff the
graph is non-empty, and it names a node whose level is the recorded maximum
layer, which is the maximum level over all nodes. -/
def entryPointInv (st : HnswState) : Prop :=
  (st.entry_point.isSome ↔ st.nodes ≠ []) ∧
  (∀ e, st.entry_point = some e →
    ∃ nd, st.nodes.get? e = some nd ∧ nd.max_layer = st.max_layer) ∧
  (st.nodes ≠ [] → st.max_layer = maxLevel st.nodes)

/-- The loop invariant of `search_layer`: every visited id is the entry or occurs
in some neighbor list; both heaps hold only visited ids; the results heap has
pairwise-distinct ids and at most `max ef 1` entries. -/
def slInv (nodes : List HnswNode) (entry ef : Nat) (st : SLState) : Prop :=
  (∀ j ∈ st.visited, j = entry ∨ memNbr nodes j) ∧
  (∀ p ∈ st.cands, p.1 ∈ st.visited) ∧
  (∀ p ∈ st.results, p.1 ∈ st.visited) ∧
  (st.results.map Prod.fst).Nodup ∧
  st.results.length ≤ max ef 1

/-! ## Lemmas about the stable sort -/

theorem insAfter_perm {ι β : Type} [LinearOrder β] (x : ι × β) :
    ∀ l : List (ι × β), (insAfter x l).Perm (x :: l)
  | [] => by simp [insAfter]
  | y :: ys => by
    rw [insAfter]
    by_cases h : x.2 < y.2
    · rw [if_pos h]
    · rw [if_neg h]
      exact ((insAfter_perm x ys).cons y).trans (List.Perm.swap x y ys)

theorem mem_insAfter {ι β : Type} [LinearOrder β] (x a : ι × β) (l : List (ι × β)) :
    a ∈ insAfter x l ↔ a = x ∨ a ∈ l := by
  rw [(insAfter_perm x l).mem_iff, List.mem_cons]

theorem insAfter_sorted {ι β : Type} [LinearOrder β] (x : ι × β) :
    ∀ l : List (ι × β), l.Pairwise (fun a b => a.2 ≤ b.2) →
      (insAfter x l).Pairwise (fun a b => a.2 ≤ b.2)
  | [], _ => by simp [insAfter]
  | y :: ys, hs => by
    rw [insAfter]
    by_cases h : x.2 < y.2
    · rw [if_pos h]
      refine List.Pairwise.cons ?_ hs
      intro z hz
      rcases List.mem_cons.1 hz with rfl | hz'
      · exact le_of_lt h
      · exact le_trans (le_of_lt h) (List.rel_of_pairwise_cons hs hz')
    · rw [if_neg h]
      refine List.Pairwise.cons ?_ (insAfter_sorted x ys (List.Pairwise.of_cons hs))
      intro z hz
      rcases (mem_insAfter x z ys).1 hz with rfl | hz'
      · exact not_lt.1 h
      · exact List.rel_of_pairwise_cons hs hz'

theorem insAfter_pairwise {ι β : Type} [LinearOrder β] {P : ι × β → ι × β → Prop}
    (x : ι × β) :
    ∀ l : List (ι × β), l.Pairwise (fun a b => a.2 ≤ b.2) →
      l.Pairwise (fun a b => b.2 ≤ a.2 → P a b) →
      (∀ y ∈ l, P y x) →
      (insAfter x l).Pairwise (fun a b => b.2 ≤ a.2 → P a b)
  | [], _, _, _ => by simp [insAfter]
  | y :: ys, hs, hp, hx => by
    rw [insAfter]
    by_cases h : x.2 < y.2
    · rw [if_pos h]
      refine List.Pairwise.cons ?_ hp
      intro z hz hzx
      rcases List.mem_cons.1 hz with rfl | hz'
      · exact absurd (lt_of_lt_of_le h hzx) (lt_irrefl _)
      · exact absurd (lt_of_lt_of_le h (le_trans (List.rel_of_pairwise_cons hs hz') hzx))
          (lt_irrefl _)
    · rw [if_neg h]
      refine List.Pairwise.cons ?_
        (insAfter_pairwise x ys (List.Pairwise.of_cons hs) (List.Pairwise.of_cons hp)
          (fun z hz => hx z (List.mem_cons_of_mem y hz)))
      intro z hz
      rcases (mem_insAfter x z ys).1 hz with rfl | hz'
      · exact fun _ => hx y (List.mem_cons_self y ys)
      · exact List.rel_of_pairwise_cons hp hz'

theorem sortByDist_aux_perm {ι β : Type} [LinearOrder β] :
    ∀ (l acc : List (ι × β)),
      (l.foldl (fun acc x => insAfter x acc) acc).Perm (acc ++ l)
  | [], acc => by simp
  | x :: xs, acc => by
    rw [List.foldl_cons]
    refine (sortByDist_aux_perm xs (insAfter x acc)).trans ?_
    refine (((insAfter_perm x acc).append_right xs).trans ?_)
    exact List.perm_middle.symm.trans (by simp)

theorem sortByDist_perm {ι β : Type} [LinearOrder β] (l : List (ι × β)) :
    (sortByDist l).Perm l := by
  simpa using sortByDist_aux_perm l []

theorem mem_sortByDist {ι β : Type} [LinearOrder β] (a : ι × β) (l : List (ι × β)) :
    a ∈ sortByDist l ↔ a ∈ l :=
  (sortByDist_perm l).mem_iff

theorem sortByDist_aux_sorted {ι β : Type} [LinearOrder β] :
    ∀ (l acc : List (ι × β)), acc.Pairwise (fun a b => a.2 ≤ b.2) →
      (l.foldl (fun acc x => insAfter x acc) acc).Pairwise (fun a b => a.2 ≤ b.2)
  | [], _, h => h
  | x :: xs, acc, h => by
    rw [List.foldl_cons]
    exact sortByDist_aux_sorted xs (insAfter x acc) (insAfter_sorted x acc h)

theorem sortByDist_sorted {ι β : Type} [LinearOrder β] (l : List (ι × β)) :
    (sortByDist l).Pairwise (fun a b => a.2 ≤ b.2) :=
  sortByDist_aux_sorted l [] (List.Pairwise.nil)

theorem sortByDist_aux_pairwise {ι β : Type} [LinearOrder β]
    {P : ι × β → ι × β → Prop} :
    ∀ (l acc : List (ι × β)), acc.Pairwise (fun a b => a.2 ≤ b.2) →
      acc.Pairwise (fun a b => b.2 ≤ a.2 → P a b) →
      (∀ y ∈ acc, ∀ x ∈ l, P y x) → l.Pairwise P →
      (l.foldl (fun acc x => insAfter x acc) acc).Pairwise (fun a b => b.2 ≤ a.2 → P a b)
  | [], _, _, hp, _, _ => hp
  | x :: xs, acc, hs, hp, hcross, hl => by
    rw [List.foldl_cons]
    refine sortByDist_aux_pairwise xs (insAfter x acc) (insAfter_sorted x acc hs)
      (insAfter_pairwise x acc hs hp
        (fun y hy => hcross y hy x (List.mem_cons_self x xs))) ?_
      (List.Pairwise.of_cons hl)
    intro y hy z hz
    rcases (mem_insAfter x y acc).1 hy with rfl | hy'
    · exact List.rel_of_pairwise_cons hl hz
    · exact hcross y hy' z (List.mem_cons_of_mem x hz)

/-- Stability of the model sort: if consecutive elements of the input are related
by `P`, then in the sorted output any pair whose keys force an original-order
inversion still satisfies `P` — in particular, equal-key elements keep their
input order. -/
theorem sortByDist_pairwise {ι β : Type} [LinearOrder β] {P : ι × β → ι × β → Prop}
    (l : List (ι × β)) (hl : l.Pairwise P) :
    (sortByDist l).Pairwise (fun a b => b.2 ≤ a.2 → P a b) :=
  sortByDist_aux_pairwise l [] List.Pairwise.nil List.Pairwise.nil (by simp) hl

theorem sorted_take_le_drop {ι β : Type} [LinearOrder β] (l : List (ι × β)) (k : Nat)
    (h : l.Pairwise (fun a b => a.2 ≤ b.2)) :
    ∀ a ∈ l.take k, ∀ b ∈ l.drop k, a.2 ≤ b.2 := by
  have h2 : (l.take k ++ l.drop k).Pairwise (fun a b : ι × β => a.2 ≤ b.2) := by
    rw [List.take_append_drop]; exact h
  exact (List.pairwise_append.1 h2).2.2

/-! ## C2: the dimension guard -/

/-- C2: for any state, an insert or a search whose vector/query length differs
from the configured dimension fails with `DimensionMismatch {expected, got}` and
returns the state unchanged (searches take the state immutably — `&self` in the
source — so for them only the error is stated). -/
theorem C2_dimension_guard (db : VectorDb) (qdb : QuantizedVectorDb)
    (id id2 : String) (v w : List ℚ) (meta : Option String) (level k k2 : Nat)
    (hv : v.length ≠ db.config.dimensions) (hw : w.length ≠ qdb.config.dimensions) :
    db.insert id v meta level = (db, .error (.DimensionMismatch db.config.dimensions v.length)) ∧
    db.search v k = .error (.DimensionMismatch db.config.dimensions v.length) ∧
    qdb.insert id2 w = (qdb, .error (.DimensionMismatch qdb.config.dimensions w.length)) ∧
    qdb.search w k2 = .error (.DimensionMismatch qdb.config.dimensions w.length) := by
  refine ⟨?_, ?_, ?_, ?_⟩
  · simp [VectorDb.insert, hv]
  · simp [VectorDb.search, hv]
  · simp [QuantizedVectorDb.insert, hw]
  · simp [QuantizedVectorDb.search, hw]

/-- Witness for C2 at a concrete empty database and the 1-element vector `[1]`. -/
theorem C2_dimension_guard_witness :
    vdbEmpty.insert "a" [1] none 0 =
      (vdbEmpty, .error (.DimensionMismatch vdbEmpty.config.dimensions 1)) ∧
    vdbEmpty.search [1] 1 = .error (.DimensionMismatch vdbEmpty.config.dimensions 1) ∧
    qdbEmpty.insert "b" [1] =
      (qdbEmpty, .error (.DimensionMismatch qdbEmpty.config.dimensions 1)) ∧
    qdbEmpty.search [1] 1 = .error (.DimensionMismatch qdbEmpty.config.dimensions 1) :=
  C2_dimension_guard vdbEmpty qdbEmpty "a" "b" [1] [1] none 0 1 1
    (by decide) (by decide)

/-! ## C3: duplicate-id rejection -/

/-- C3 counterexample: with `("x", [1, 0])` already present in a 2-dimensional
storage, re-inserting the id `"x"` with the 1-dimensional vector `[1]` fails with
`DimensionMismatch`, not `DuplicateId` — the dimension guard fires first, so the
claim's unconditional `DuplicateId` does not hold for every insert with a present
id. -/
theorem C3_counterexample :
    stX.get_internal_id "x" = some 0 ∧
    (stX.insert "x" [1] none).2 = .error (.DimensionMismatch 2 1) ∧
    (stX.insert "x" [1] none).2 ≠ .error (.DuplicateId "x") := by
  refine ⟨rfl, rfl, ?_⟩
  intro h
  rw [show (stX.insert "x" [1] none).2 = .error (.DimensionMismatch 2 1) from rfl] at h
  exact absurd (Except.error.inj h) (by simp)

/-- C3 (amended): if the external id is already present **and the new vector has
the configured dimension**, the insert fails with `DuplicateId`, the state is
returned unchanged, and in particular `len()` is unchanged; for both storage
flavors. -/
theorem C3_duplicate_id (s : VectorStorage) (qs : QuantizedStorage)
    (id id2 : String) (v w : List ℚ) (m m2 : Option String) (j j2 : Nat)
    (hs : s.get_internal_id id = some j) (hv : v.length = s.dimensions)
    (hqs : qs.get_internal_id id2 = some j2) (hw : w.length = qs.dimensions) :
    s.insert id v m = (s, .error (.DuplicateId id)) ∧
    (s.insert id v m).1.len = s.len ∧
    qs.insert id2 w m2 = (qs, .error (.DuplicateId id2)) ∧
    (qs.insert id2 w m2).1.len = qs.len := by
  have h1 : s.insert id v m = (s, .error (.DuplicateId id)) := by
    simp [VectorStorage.insert, hv, VectorStorage.get_internal_id] at hs ⊢
    simp [hs]
  have h2 : qs.insert id2 w m2 = (qs, .error (.DuplicateId id2)) := by
    simp [QuantizedStorage.insert, hw, QuantizedStorage.get_internal_id] at hqs ⊢
    simp [hqs]
  exact ⟨h1, by rw [h1], h2, by rw [h2]⟩

/-- Witness for C3 (amended): re-inserting `"x"` with a well-dimensioned vector
into the concrete one-vector storages. -/
theorem C3_duplicate_id_witness :
    stX.insert "x" [2, 0] none = (stX, .error (.DuplicateId "x")) ∧
    (stX.insert "x" [2, 0] none).1.len = stX.len ∧
    qstX.insert "x" [2, 0] none = (qstX, .error (.DuplicateId "x")) ∧
    (qstX.insert "x" [2, 0] none).1.len = qstX.len :=
  C3_duplicate_id stX qstX "x" "x" [2, 0] [2, 0] none none 0 0
    rfl rfl rfl rfl

/-! ## C8: searching an empty index -/

/-- C8 counterexample: on an empty quantized database with dimension 2, the query
`[1]` (wrong dimension) yields `DimensionMismatch`, not `EmptyIndex` — the
dimension guard fires before the emptiness guard, so "for every query vector"
fails for `QuantizedVectorDb::search`. -/
theorem C8_counterexample :
    qdbEmpty.len = 0 ∧
    qdbEmpty.search [1] 1 = .error (.DimensionMismatch 2 1) ∧
    qdbEmpty.search [1] 1 ≠ .error .EmptyIndex := by
  refine ⟨rfl, rfl, ?_⟩
  intro h
  rw [show qdbEmpty.search [1] 1 = .error (.DimensionMismatch 2 1) from rfl] at h
  exact absurd (Except.error.inj h) (by simp)

/-- C8 (amended): `HnswIndex::search` on the empty graph returns `EmptyIndex` for
every query (any distance-to-query function) and every `k`;
`QuantizedVectorDb::search` on empty storage returns `EmptyIndex` for every query
**of the configured dimension** and every `k`. -/
theorem C8_empty_index (cfg : HnswConfig) (dq : Nat → Option ℚ) (k : Nat)
    (qdb : QuantizedVectorDb) (q : List ℚ) (k2 : Nat)
    (hq : q.length = qdb.config.dimensions) (he : qdb.storage.is_empty = true) :
    hnswSearch cfg HnswState.new dq k = .error .EmptyIndex ∧
    qdb.search q k2 = .error .EmptyIndex := by
  refine ⟨rfl, ?_⟩
  simp [QuantizedVectorDb.search, hq, he]

/-- Witness for C8 (amended) at the concrete empty database and a well-dimensioned
query. -/
theorem C8_empty_index_witness :
    hnswSearch HnswConfig.default HnswState.new (fun _ => some 1) 3 = .error .EmptyIndex ∧
    qdbEmpty.search [1, 0] 1 = .error .EmptyIndex :=
  C8_empty_index HnswConfig.default (fun _ => some 1) 3 qdbEmpty [1, 0] 1 (by decide) rfl

/-! ## C5: the ID bijection -/

theorem idmaps_step (m : List (String × Nat)) (v : List String) (id : String)
    (h1 : ∀ e i, alistFind e m = some i → v.get? i = some e)
    (h2 : ∀ i e, v.get? i = some e → alistFind e m = some i)
    (fresh : alistFind id m = none) :
    (∀ e i, alistFind e ((id, v.length) :: m) = some i → (v ++ [id]).get? i = some e) ∧
    (∀ i e, (v ++ [id]).get? i = some e → alistFind e ((id, v.length) :: m) = some i) := by
  constructor
  · intro e i h
    rw [alistFind] at h
    by_cases hid : id = e
    · rw [if_pos hid] at h
      have hi : i = v.length := (Option.some.inj h).symm
      subst hi
      rw [List.get?_concat_length, hid]
    · rw [if_neg hid] at h
      have hv := h1 e i h
      have hlt : i < v.length := by
        rcases List.get?_eq_some.1 hv with ⟨hl, _⟩
        exact hl
      rw [List.get?_append hlt]
      exact hv
  · intro i e h
    by_cases hlt : i < v.length
    · rw [List.get?_append hlt] at h
      have hm := h2 i e h
      rw [alistFind]
      by_cases hid : id = e
      · subst hid
        rw [fresh] at hm
        exact absurd hm (by simp)
      · rw [if_neg hid]
        exact hm
    · have hi : i = v.length := by
        by_contra hne
        have hgt : v.length < i := lt_of_le_of_ne (not_lt.1 hlt) (Ne.symm hne)
        have : (v ++ [id]).get? i = none := by
          rw [List.get?_eq_none]
          simpa using hgt
        rw [this] at h
        exact absurd h (by simp)
      subst hi
      rw [List.get?_concat_length] at h
      have he : id = e := Option.some.inj h
      rw [alistFind, if_pos he]

theorem vstorage_insert_inv (s : VectorStorage) (id : String) (vec : List ℚ)
    (m : Option String)
    (h1 : ∀ e i, s.get_internal_id e = some i → s.get_external_id i = some e)
    (h2 : ∀ i e, s.get_external_id i = some e → s.get_internal_id e = some i) :
    (∀ e i, (s.insert id vec m).1.get_internal_id e = some i →
      (s.insert id vec m).1.get_external_id i = some e) ∧
    (∀ i e, (s.insert id vec m).1.get_external_id i = some e →
      (s.insert id vec m).1.get_internal_id e = some i) := by
  by_cases hd : vec.length ≠ s.dimensions
  · simp only [VectorStorage.insert, if_pos hd]
    exact ⟨h1, h2⟩
  · by_cases hdup : (alistFind id s.id_to_internal).isSome
    · simp only [VectorStorage.insert, if_neg hd, if_pos hdup]
      exact ⟨h1, h2⟩
    · have fresh : alistFind id s.id_to_internal = none :=
        Option.not_isSome_iff_eq_none.1 hdup
      have step := idmaps_step s.id_to_internal s.internal_to_id id h1 h2 fresh
      simp only [VectorStorage.insert, if_neg hd, if_neg hdup]
      exact step

theorem qstorage_insert_maps (s : QuantizedStorage) (id : String) (vec : List ℚ)
    (m : Option String) (hd : ¬ vec.length ≠ s.dimensions)
    (hdup : ¬ (alistFind id s.id_to_internal).isSome) :
    (s.insert id vec m).1.id_to_internal =
      (id, s.internal_to_id.length) :: s.id_to_internal ∧
    (s.insert id vec m).1.internal_to_id = s.internal_to_id ++ [id] := by
  cases hq : s.quantization <;>
    simp only [QuantizedStorage.insert, if_neg hd, if_neg hdup, hq] <;>
    split <;> simp

theorem qstorage_insert_inv (s : QuantizedStorage) (id : String) (vec : List ℚ)
    (m : Option String)
    (h1 : ∀ e i, s.get_internal_id e = some i → s.get_external_id i = some e)
    (h2 : ∀ i e, s.get_external_id i = some e → s.get_internal_id e = some i) :
    (∀ e i, (s.insert id vec m).1.get_internal_id e = some i →
      (s.insert id vec m).1.get_external_id i = some e) ∧
    (∀ i e, (s.insert id vec m).1.get_external_id i = some e →
      (s.insert id vec m).1.get_internal_id e = some i) := by
  by_cases hd : vec.length ≠ s.dimensions
  · simp only [QuantizedStorage.insert, if_pos hd]
    exact ⟨h1, h2⟩
  · by_cases hdup : (alistFind id s.id_to_internal).isSome
    · simp only [QuantizedStorage.insert, if_neg hd, if_pos hdup]
      exact ⟨h1, h2⟩
    · have fresh : alistFind id s.id_to_internal = none :=
        Option.not_isSome_iff_eq_none.1 hdup
      have step := idmaps_step s.id_to_internal s.internal_to_id id h1 h2 fresh
      have maps := qstorage_insert_maps s id vec m hd hdup
      unfold QuantizedStorage.get_internal_id QuantizedStorage.get_external_id
      rw [maps.1, maps.2]
      exact step

theorem vstorage_applyInserts_inv :
    ∀ (ops : List (String × List ℚ × Option String)) (s : VectorStorage),
      (∀ e i, s.get_internal_id e = some i → s.get_external_id i = some e) →
      (∀ i e, s.get_external_id i = some e → s.get_internal_id e = some i) →
      (∀ e i, (s.applyInserts ops).get_internal_id e = some i →
        (s.applyInserts ops).get_external_id i = some e) ∧
      (∀ i e, (s.applyInserts ops).get_external_id i = some e →
        (s.applyInserts ops).get_internal_id e = some i)
  | [], s, h1, h2 => ⟨h1, h2⟩
  | op :: ops, s, h1, h2 => by
    have step := vstorage_insert_inv s op.1 op.2.1 op.2.2 h1 h2
    simpa [VectorStorage.applyInserts] using
      vstorage_applyInserts_inv ops (s.insert op.1 op.2.1 op.2.2).1 step.1 step.2

theorem qstorage_applyInserts_inv :
    ∀ (ops : List (String × List ℚ × Option String)) (s : QuantizedStorage),
      (∀ e i, s.get_internal_id e = some i → s.get_external_id i = some e) →
      (∀ i e, s.get_external_id i = some e → s.get_internal_id e = some i) →
      (∀ e i, (s.applyInserts ops).get_internal_id e = some i →
        (s.applyInserts ops).get_external_id i = some e) ∧
      (∀ i e, (s.applyInserts ops).get_external_id i = some e →
        (s.applyInserts ops).get_internal_id e = some i)
  | [], s, h1, h2 => ⟨h1, h2⟩
  | op :: ops, s, h1, h2 => by
    have step := qstorage_insert_inv s op.1 op.2.1 op.2.2 h1 h2
    simpa [QuantizedStorage.applyInserts] using
      qstorage_applyInserts_inv ops (s.insert op.1 op.2.1 op.2.2).1 step.1 step.2

/-- C5: after any sequence of inserts (failed ones leave the state unchanged),
the external→internal and internal→external maps of both storage flavors are
mutually inverse: `get_external_id (get_internal_id e) = e` and
`get_internal_id (get_external_id i) = i`. -/
theorem C5_id_bijection (D qD : Nat) (qt : QuantizationType) (ko : Bool)
    (ops ops2 : List (String × List ℚ × Option String)) :
    ((∀ e i, ((VectorStorage.new D).applyInserts ops).get_internal_id e = some i →
        ((VectorStorage.new D).applyInserts ops).get_external_id i = some e) ∧
      (∀ i e, ((VectorStorage.new D).applyInserts ops).get_external_id i = some e →
        ((VectorStorage.new D).applyInserts ops).get_internal_id e = some i)) ∧
    ((∀ e i, ((QuantizedStorage.new qD qt ko).applyInserts ops2).get_internal_id e = some i →
        ((QuantizedStorage.new qD qt ko).applyInserts ops2).get_external_id i = some e) ∧
      (∀ i e, ((QuantizedStorage.new qD qt ko).applyInserts ops2).get_external_id i = some e →
        ((QuantizedStorage.new qD qt ko).applyInserts ops2).get_internal_id e = some i)) := by
  constructor
  · exact vstorage_applyInserts_inv ops (VectorStorage.new D)
      (by intro e i h; exact absurd h (by simp [VectorStorage.new, VectorStorage.get_internal_id, alistFind]))
      (by intro i e h; exact absurd h (by simp [VectorStorage.new, VectorStorage.get_external_id]))
  · exact qstorage_applyInserts_inv ops2 (QuantizedStorage.new qD qt ko)
      (by intro e i h; exact absurd h (by simp [QuantizedStorage.new, QuantizedStorage.get_internal_id, alistFind]))
      (by intro i e h; exact absurd h (by simp [QuantizedStorage.new, QuantizedStorage.get_external_id]))

/-! ## C4: the re-ranking pipeline -/

/-- C4: with `keep_originals` set and quantization enabled, `QuantizedVectorDb::search`
takes the `k·rerank_multiplier` candidates closest under the quantized distance,
recomputes each retained candidate's distance with the exact metric on its stored
original, re-sorts ascending and truncates to `k`: the internal result list is
exactly that pipeline, it is sorted, has at most `k` entries, every entry carries
the exact-metric distance to its stored original, every entry comes from the
fetched top `k·rerank_multiplier`, and every fetched candidate is at least as
close (under the quantized distance) as every non-fetched one. -/
theorem C4_rerank_pipeline (db : QuantizedVectorDb) (query : List ℚ) (k : Nat)
    (hko : db.config.keep_originals = true)
    (hq : db.config.quantization ≠ QuantizationType.None) :
    quantizedSearchResults db query k =
      (sortByDist (rerankOnOriginals db query
        ((quantizedCandidates db query).take (k * db.config.rerank_multiplier)))).take k ∧
    (quantizedSearchResults db query k).Pairwise (fun a b => a.2 ≤ b.2) ∧
    (quantizedSearchResults db query k).length ≤ k ∧
    (∀ p ∈ quantizedSearchResults db query k,
      ∃ orig, db.storage.get_original p.1 = some orig ∧
        p.2 = db.config.distance_metric.distance query orig) ∧
    (∀ p ∈ quantizedSearchResults db query k,
      p.1 ∈ ((quantizedCandidates db query).take (k * db.config.rerank_multiplier)).map
        Prod.fst) ∧
    (∀ a ∈ (quantizedCandidates db query).take (k * db.config.rerank_multiplier),
      ∀ b ∈ (quantizedCandidates db query).drop (k * db.config.rerank_multiplier),
        a.2 ≤ b.2) := by
  have h0 : quantizedSearchResults db query k =
      (sortByDist (rerankOnOriginals db query
        ((quantizedCandidates db query).take (k * db.config.rerank_multiplier)))).take k := by
    rw [quantizedSearchResults, if_pos]
    exact ⟨by rw [hko], hq⟩
  have hmem : ∀ p ∈ quantizedSearchResults db query k,
      p ∈ rerankOnOriginals db query
        ((quantizedCandidates db query).take (k * db.config.rerank_multiplier)) := by
    intro p hp
    rw [h0] at hp
    exact (mem_sortByDist p _).1 (List.mem_of_mem_take hp)
  refine ⟨h0, ?_, ?_, ?_, ?_, ?_⟩
  · rw [h0]
    exact (sortByDist_sorted _).sublist (List.take_sublist _ _)
  · rw [h0, List.length_take]
    exact min_le_left _ _
  · intro p hp
    rcases List.mem_filterMap.1 (hmem p hp) with ⟨a, _, ha⟩
    rcases Option.map_eq_some'.1 ha with ⟨orig, horig, hpair⟩
    exact ⟨orig, by rw [← hpair]; exact horig, by rw [← hpair]⟩
  · intro p hp
    rcases List.mem_filterMap.1 (hmem p hp) with ⟨a, hamem, ha⟩
    rcases Option.map_eq_some'.1 ha with ⟨orig, _, hpair⟩
    have : p.1 = a.1 := by rw [← hpair]
    rw [this]
    exact List.mem_map_of_mem Prod.fst hamem
  · intro a ha b hb
    have hsorted : (quantizedCandidates db query).Pairwise
        (fun a b : Nat × ℚ => a.2 ≤ b.2) := by
      rw [quantizedCandidates]
      exact sortByDist_sorted _
    exact sorted_take_le_drop _ _ hsorted a ha b hb

/-- Witness for C4 at the concrete two-vector SQ8 database with re-ranking. -/
theorem C4_rerank_pipeline_witness :
    quantizedSearchResults qdbTie [0, 1, 0] 2 =
      (sortByDist (rerankOnOriginals qdbTie [0, 1, 0]
        ((quantizedCandidates qdbTie [0, 1, 0]).take
          (2 * qdbTie.config.rerank_multiplier)))).take 2 ∧
    (quantizedSearchResults qdbTie [0, 1, 0] 2).Pairwise (fun a b => a.2 ≤ b.2) ∧
    (quantizedSearchResults qdbTie [0, 1, 0] 2).length ≤ 2 ∧
    (∀ p ∈ quantizedSearchResults qdbTie [0, 1, 0] 2,
      ∃ orig, qdbTie.storage.get_original p.1 = some orig ∧
        p.2 = qdbTie.config.distance_metric.distance [0, 1, 0] orig) ∧
    (∀ p ∈ quantizedSearchResults qdbTie [0, 1, 0] 2,
      p.1 ∈ ((quantizedCandidates qdbTie [0, 1, 0]).take
        (2 * qdbTie.config.rerank_multiplier)).map Prod.fst) ∧
    (∀ a ∈ (quantizedCandidates qdbTie [0, 1, 0]).take (2 * qdbTie.config.rerank_multiplier),
      ∀ b ∈ (quantizedCandidates qdbTie [0, 1, 0]).drop (2 * qdbTie.config.rerank_multiplier),
        a.2 ≤ b.2) :=
  C4_rerank_pipeline qdbTie [0, 1, 0] 2 rfl (by decide)

/-! ## C9: the equal-distance tie-break -/

unseal Rat.mul Rat.inv Rat.add Rat.sub in
/-- C9 counterexample: in the concrete re-ranking database `qdbTie`, the two
stored vectors have exactly equal exact-metric distance `-26/5` to the query
`[0, 1, 0]`, yet the search returns internal id 1 before internal id 0 (the
stable re-sort keeps the quantized-distance order on exact-distance ties), so the
claimed smaller-`InternalId`-first tie-break fails for the re-ranking path. -/
theorem C9_counterexample :
    qdbTie.config.keep_originals = true ∧
    qdbTie.config.quantization = QuantizationType.SQ8 ∧
    quantizedSearchResults qdbTie [0, 1, 0] 2 = [(1, -26/5), (0, -26/5)] ∧
    qdbTie.search [0, 1, 0] 2 = .ok [("b", -26/5), ("a", -26/5)] := by
  refine ⟨rfl, rfl, by decide, by rfl⟩

/-- C9 (amended): the brute-force candidate list of `QuantizedVectorDb::search` is
stably sorted over the ascending-id enumeration of the storage, so candidates at
exactly equal distance appear in ascending `InternalId` order; consequently the
returned list of the non-re-ranking path places the smaller `InternalId` first on
ties.  (The re-ranking path instead keeps the quantized-distance order on
exact-distance ties, and `HnswIndex::search` inherits the unspecified heap order,
as the counterexample shows.) -/
theorem C9_tie_break_non_rerank (db : QuantizedVectorDb) (query : List ℚ) (k : Nat)
    (h : ¬(db.config.keep_originals = true ∧
      db.config.quantization ≠ QuantizationType.None)) :
    (quantizedCandidates db query).Pairwise (fun a b => a.2 = b.2 → a.1 < b.1) ∧
    (quantizedSearchResults db query k).Pairwise (fun a b => a.2 = b.2 → a.1 < b.1) := by
  have hcand : (quantizedCandidates db query).Pairwise
      (fun a b : Nat × ℚ => a.2 = b.2 → a.1 < b.1) := by
    rw [quantizedCandidates]
    have hin : (db.storage.all_internal_ids.filterMap
        (fun id => (db.storage.distance query id db.config.distance_metric).map
          (fun dist => (id, dist)))).Pairwise (fun a b : Nat × ℚ => a.1 < b.1) := by
      refine List.Pairwise.filterMap _ ?_ (List.pairwise_lt_range _)
      intro a b hab x hx y hy
      rcases Option.map_eq_some'.1 hx with ⟨_, _, hx'⟩
      rcases Option.map_eq_some'.1 hy with ⟨_, _, hy'⟩
      rw [← hx', ← hy']
      exact hab
    refine (sortByDist_pairwise _ hin).imp ?_
    intro a b hab heq
    exact hab (le_of_eq heq.symm)
  refine ⟨hcand, ?_⟩
  rw [quantizedSearchResults, if_neg]
  · exact hcand.sublist (List.take_sublist _ _)
  · intro hc
    exact h ⟨by simpa using hc.1, hc.2⟩

/-- Witness for C9 (amended) at a concrete database without re-ranking. -/
theorem C9_tie_break_non_rerank_witness :
    (quantizedCandidates qdbEmpty [1, 0]).Pairwise (fun a b => a.2 = b.2 → a.1 < b.1) ∧
    (quantizedSearchResults qdbEmpty [1, 0] 1).Pairwise (fun a b => a.2 = b.2 → a.1 < b.1) :=
  C9_tie_break_non_rerank qdbEmpty [1, 0] 1 (by decide)

/-! ## Heap-pop lemmas -/

theorem popMin_eq_none : ∀ l : List (Nat × DistQ), popMin l = none ↔ l = []
  | [] => by simp [popMin]
  | x :: xs => by
    rw [popMin]
    cases hm : popMin xs with
    | none => simp
    | some m => by_cases hle : x.2 ≤ m.1.2 <;> simp [hle]

theorem popMin_perm : ∀ (l : List (Nat × DistQ)) (c : Nat × DistQ)
    (rest : List (Nat × DistQ)), popMin l = some (c, rest) → l.Perm (c :: rest)
  | [], c, rest, h => by simp [popMin] at h
  | x :: xs, c, rest, h => by
    rw [popMin] at h
    cases hm : popMin xs with
    | none =>
      rw [hm] at h
      dsimp only at h
      have hxs : xs = [] := (popMin_eq_none xs).1 hm
      obtain ⟨rfl, rfl⟩ : x = c ∧ [] = rest := by
        have := Option.some.inj h
        exact ⟨congrArg Prod.fst this, congrArg Prod.snd this⟩
      rw [hxs]
    | some m =>
      obtain ⟨m1, mrest⟩ := m
      rw [hm] at h
      dsimp only at h
      by_cases hle : x.2 ≤ m1.2
      · rw [if_pos hle] at h
        obtain ⟨rfl, rfl⟩ : x = c ∧ xs = rest := by
          have := Option.some.inj h
          exact ⟨congrArg Prod.fst this, congrArg Prod.snd this⟩
        exact List.Perm.refl _
      · rw [if_neg hle] at h
        obtain ⟨rfl, rfl⟩ : m1 = c ∧ x :: mrest = rest := by
          have := Option.some.inj h
          exact ⟨congrArg Prod.fst this, congrArg Prod.snd this⟩
        exact ((popMin_perm xs m1 mrest hm).cons x).trans (List.Perm.swap m1 x mrest)

theorem popMax_eq_none : ∀ l : List (Nat × DistQ), popMax l = none ↔ l = []
  | [] => by simp [popMax]
  | x :: xs => by
    rw [popMax]
    cases hm : popMax xs with
    | none => simp
    | some m => by_cases hle : m.1.2 ≤ x.2 <;> simp [hle]

theorem popMax_perm : ∀ (l : List (Nat × DistQ)) (c : Nat × DistQ)
    (rest : List (Nat × DistQ)), popMax l = some (c, rest) → l.Perm (c :: rest)
  | [], c, rest, h => by simp [popMax] at h
  | x :: xs, c, rest, h => by
    rw [popMax] at h
    cases hm : popMax xs with
    | none =>
      rw [hm] at h
      dsimp only at h
      have hxs : xs = [] := (popMax_eq_none xs).1 hm
      obtain ⟨rfl, rfl⟩ : x = c ∧ [] = rest := by
        have := Option.some.inj h
        exact ⟨congrArg Prod.fst this, congrArg Prod.snd this⟩
      rw [hxs]
    | some m =>
      obtain ⟨m1, mrest⟩ := m
      rw [hm] at h
      dsimp only at h
      by_cases hle : m1.2 ≤ x.2
      · rw [if_pos hle] at h
        obtain ⟨rfl, rfl⟩ : x = c ∧ xs = rest := by
          have := Option.some.inj h
          exact ⟨congrArg Prod.fst this, congrArg Prod.snd this⟩
        exact List.Perm.refl _
      · rw [if_neg hle] at h
        obtain ⟨rfl, rfl⟩ : m1 = c ∧ x :: mrest = rest := by
          have := Option.some.inj h
          exact ⟨congrArg Prod.fst this, congrArg Prod.snd this⟩
        exact ((popMax_perm xs m1 mrest hm).cons x).trans (List.Perm.swap m1 x mrest)

/-! ## The `search_layer` loop invariant -/

theorem visitNeighbor_inv {nodes : List HnswNode} {entry ef : Nat}
    {dq : Nat → Option ℚ} {st : SLState} {n : Nat}
    (h : slInv nodes entry ef st) (hn : n = entry ∨ memNbr nodes n) :
    slInv nodes entry ef (visitNeighbor dq ef st n) := by
  obtain ⟨hvis, hcands, hres, hnd, hlen⟩ := h
  rw [visitNeighbor]
  by_cases hmem : n ∈ st.visited
  · rw [if_pos hmem]
    exact ⟨hvis, hcands, hres, hnd, hlen⟩
  · rw [if_neg hmem]
    have hvis' : ∀ j ∈ n :: st.visited, j = entry ∨ memNbr nodes j := by
      intro j hj
      rcases List.mem_cons.1 hj with rfl | hj'
      · exact hn
      · exact hvis j hj'
    cases hdq : dq n with
    | none =>
      exact ⟨hvis', fun p hp => List.mem_cons_of_mem n (hcands p hp),
        fun p hp => List.mem_cons_of_mem n (hres p hp), hnd, hlen⟩
    | some q =>
      simp only
      by_cases hpush : ((q : DistQ) < peekMaxD st.results ∨ st.results.length < ef)
      · rw [if_pos hpush]
        have hndpush : (((n, (q : DistQ)) :: st.results).map Prod.fst).Nodup := by
          refine List.Nodup.cons ?_ hnd
          intro hc
          rcases List.mem_map.1 hc with ⟨p, hp, hpn⟩
          have hpv := hres p hp
          rw [hpn] at hpv
          exact hmem hpv
        have hrespush : ∀ p ∈ (n, (q : DistQ)) :: st.results, p.1 ∈ n :: st.visited := by
          intro p hp
          rcases List.mem_cons.1 hp with rfl | hp'
          · exact List.mem_cons_self _ _
          · exact List.mem_cons_of_mem n (hres p hp')
        have hcandspush : ∀ p ∈ (n, (q : DistQ)) :: st.cands, p.1 ∈ n :: st.visited := by
          intro p hp
          rcases List.mem_cons.1 hp with rfl | hp'
          · exact List.mem_cons_self _ _
          · exact List.mem_cons_of_mem n (hcands p hp')
        by_cases hover : ef < ((n, (q : DistQ)) :: st.results).length
        · rw [if_pos hover]
          cases hpop : popMax ((n, (q : DistQ)) :: st.results) with
          | none =>
            exact absurd ((popMax_eq_none _).1 hpop) (by simp)
          | some mr =>
            obtain ⟨m, rest⟩ := mr
            have hperm := popMax_perm _ m rest hpop
            refine ⟨hvis', hcandspush, ?_, ?_, ?_⟩
            · intro p hp
              exact hrespush p (hperm.symm.subset (List.mem_cons_of_mem m hp))
            · have : ((m :: rest).map Prod.fst).Nodup :=
                (hperm.map Prod.fst).nodup_iff.1 hndpush
              exact (List.nodup_cons.1 this).2
            · have hl := hperm.length_eq
              simp only [List.length_cons] at hl
              have : rest.length = st.results.length := Nat.succ_injective hl.symm
              rw [this]
              exact hlen
        · rw [if_neg hover]
          refine ⟨hvis', hcandspush, hrespush, hndpush, ?_⟩
          have : ((n, (q : DistQ)) :: st.results).length ≤ ef := not_lt.1 hover
          exact le_trans this (le_max_left ef 1)
      · rw [if_neg hpush]
        exact ⟨hvis', fun p hp => List.mem_cons_of_mem n (hcands p hp),
          fun p hp => List.mem_cons_of_mem n (hres p hp), hnd, hlen⟩

theorem expandNeighbors_inv {nodes : List HnswNode} {entry ef : Nat}
    {dq : Nat → Option ℚ} :
    ∀ (ns : List Nat) (st : SLState), slInv nodes entry ef st →
      (∀ n ∈ ns, n = entry ∨ memNbr nodes n) →
      slInv nodes entry ef (expandNeighbors dq ef ns st)
  | [], st, h, _ => h
  | n :: ns, st, h, hns => by
    rw [expandNeighbors, List.foldl_cons]
    exact expandNeighbors_inv ns _
      (visitNeighbor_inv h (hns n (List.mem_cons_self n ns)))
      (fun n' hn' => hns n' (List.mem_cons_of_mem n hn'))

theorem searchLayerLoop_inv {nodes : List HnswNode} {entry ef layer : Nat}
    {dq : Nat → Option ℚ} :
    ∀ (fuel : Nat) (st : SLState), slInv nodes entry ef st →
      (∀ p ∈ searchLayerLoop nodes dq ef layer fuel st,
        p.1 = entry ∨ memNbr nodes p.1) ∧
      ((searchLayerLoop nodes dq ef layer fuel st).map Prod.fst).Nodup ∧
      (searchLayerLoop nodes dq ef layer fuel st).length ≤ max ef 1
  | 0, st, h => ⟨fun p hp => h.1 p.1 (h.2.2.1 p hp), h.2.2.2.1, h.2.2.2.2⟩
  | fuel + 1, st, h => by
    rw [searchLayerLoop]
    cases hpop : popMin st.cands with
    | none =>
      exact ⟨fun p hp => h.1 p.1 (h.2.2.1 p hp), h.2.2.2.1, h.2.2.2.2⟩
    | some cr =>
      obtain ⟨current, rest⟩ := cr
      dsimp only
      by_cases hbreak : peekMaxD st.results < current.2
      · rw [if_pos hbreak]
        exact ⟨fun p hp => h.1 p.1 (h.2.2.1 p hp), h.2.2.2.1, h.2.2.2.2⟩
      · rw [if_neg hbreak]
        have hperm := popMin_perm _ current rest hpop
        have hrest : slInv nodes entry ef { st with cands := rest } :=
          ⟨h.1, fun p hp => h.2.1 p (hperm.symm.subset (List.mem_cons_of_mem current hp)),
            h.2.2.1, h.2.2.2.1, h.2.2.2.2⟩
        cases hget : nodes.get? current.1 with
        | none =>
          exact searchLayerLoop_inv fuel _ hrest
        | some node =>
          dsimp only
          by_cases hlay : layer ≤ node.max_layer
          · rw [if_pos hlay]
            refine searchLayerLoop_inv fuel _ (expandNeighbors_inv _ _ hrest ?_)
            intro n hn
            exact Or.inr ⟨node, List.get?_mem hget, layer, hn⟩
          · rw [if_neg hlay]
            exact searchLayerLoop_inv fuel _ hrest

theorem searchLayerRaw_inv (nodes : List HnswNode) (dq : Nat → Option ℚ)
    (entry ef layer : Nat) :
    (∀ p ∈ searchLayerRaw nodes dq entry ef layer, p.1 = entry ∨ memNbr nodes p.1) ∧
    ((searchLayerRaw nodes dq entry ef layer).map Prod.fst).Nodup ∧
    (searchLayerRaw nodes dq entry ef layer).length ≤ max ef 1 := by
  refine searchLayerLoop_inv _ _ ⟨?_, ?_, ?_, ?_, ?_⟩
  · intro j hj
    rcases List.mem_singleton.1 hj with rfl
    exact Or.inl rfl
  · intro p hp
    rcases List.mem_singleton.1 hp with rfl
    exact List.mem_singleton.2 rfl
  · intro p hp
    rcases List.mem_singleton.1 hp with rfl
    exact List.mem_singleton.2 rfl
  · simp
  · simp only [List.length_singleton]
    exact le_max_right ef 1

theorem searchLayer_inv (nodes : List HnswNode) (dq : Nat → Option ℚ)
    (entry ef layer : Nat) :
    (∀ p ∈ searchLayer nodes dq entry ef layer, p.1 = entry ∨ memNbr nodes p.1) ∧
    ((searchLayer nodes dq entry ef layer).map Prod.fst).Nodup ∧
    (searchLayer nodes dq entry ef layer).length ≤ max ef 1 := by
  obtain ⟨h1, h2, h3⟩ := searchLayerRaw_inv nodes dq entry ef layer
  have hperm : (searchLayer nodes dq entry ef layer).Perm
      (searchLayerRaw nodes dq entry ef layer) := sortByDist_perm _
  refine ⟨fun p hp => h1 p (hperm.subset hp), ?_, ?_⟩
  · exact (hperm.map Prod.fst).nodup_iff.2 h2
  · rw [hperm.length_eq]
    exact h3

/-! ## C1: shape of the search result -/

/-- C1: on a non-empty index (any entry point), for every distance-to-query
function and every `k`, `HnswIndex::search` succeeds and returns at most `k`
pairs, sorted ascending by distance, and these are exactly the `k`
smallest-distance elements of the layer-0 results heap run with
`ef = max(ef_search, k)` from the descended entry point: the output extends by a
remainder `rest` to a permutation of that heap, with every returned distance at
most every remaining one (the heap itself holds at most `max ef 1` elements). -/
theorem C1_search_top_k (cfg : HnswConfig) (st : HnswState) (dq : Nat → Option ℚ)
    (k e : Nat) (h : st.entry_point = some e) :
    ∃ out, hnswSearch cfg st dq k = .ok out ∧
      out.length ≤ k ∧
      out.Pairwise (fun a b => a.2 ≤ b.2) ∧
      (searchLayerRaw st.nodes dq
        (descendLayers st.nodes dq st.max_layer st.max_layer e)
        (max cfg.ef_search k) 0).length ≤ max (max cfg.ef_search k) 1 ∧
      ∃ rest, (out ++ rest).Perm (searchLayerRaw st.nodes dq
          (descendLayers st.nodes dq st.max_layer st.max_layer e)
          (max cfg.ef_search k) 0) ∧
        ∀ a ∈ out, ∀ b ∈ rest, a.2 ≤ b.2 := by
  set ep0 := descendLayers st.nodes dq st.max_layer st.max_layer e with hep0
  set ef := max cfg.ef_search k with hef
  set raw := searchLayerRaw st.nodes dq ep0 ef 0 with hraw
  have hsorted : (sortByDist raw).Pairwise (fun a b : Nat × DistQ => a.2 ≤ b.2) :=
    sortByDist_sorted raw
  refine ⟨(searchLayer st.nodes dq ep0 ef 0).take k, ?_, ?_, ?_, ?_, ?_⟩
  · simp only [hnswSearch, h]
  · rw [List.length_take]
    exact min_le_left _ _
  · exact (List.Pairwise.sublist (List.take_sublist _ _)
      (by rw [searchLayer, ← hraw]; exact hsorted))
  · exact (searchLayerRaw_inv st.nodes dq ep0 ef 0).2.2
  · refine ⟨(searchLayer st.nodes dq ep0 ef 0).drop k, ?_, ?_⟩
    · rw [List.take_append_drop]
      exact (by rw [searchLayer, ← hraw]; exact sortByDist_perm raw)
    · intro a ha b hb
      refine sorted_take_le_drop (searchLayer st.nodes dq ep0 ef 0) k ?_ a ha b hb
      rw [searchLayer, ← hraw]
      exact hsorted

/-- Witness for C1 at the concrete one-node index. -/
theorem C1_search_top_k_witness :
    ∃ out, hnswSearch HnswConfig.default hnswOne (fun _ => some 1) 1 = .ok out ∧
      out.length ≤ 1 ∧
      out.Pairwise (fun a b => a.2 ≤ b.2) ∧
      (searchLayerRaw hnswOne.nodes (fun _ => some 1)
        (descendLayers hnswOne.nodes (fun _ => some 1) hnswOne.max_layer
          hnswOne.max_layer 0)
        (max HnswConfig.default.ef_search 1) 0).length ≤
        max (max HnswConfig.default.ef_search 1) 1 ∧
      ∃ rest, (out ++ rest).Perm (searchLayerRaw hnswOne.nodes (fun _ => some 1)
          (descendLayers hnswOne.nodes (fun _ => some 1) hnswOne.max_layer
            hnswOne.max_layer 0)
          (max HnswConfig.default.ef_search 1) 0) ∧
        ∀ a ∈ out, ∀ b ∈ rest, a.2 ≤ b.2 :=
  C1_search_top_k HnswConfig.default hnswOne (fun _ => some 1) 1 0 rfl

/-! ## C10: distinct ids in the search result -/

/-- C10: for every index state with an entry point, every distance-to-query
function and every `k`, the list returned by `HnswIndex::search` has
pairwise-distinct `InternalId`s — the visited set admits each node into the
results heap at most once, and popping, sorting and truncation preserve
distinctness. -/
theorem C10_distinct_ids (cfg : HnswConfig) (st : HnswState) (dq : Nat → Option ℚ)
    (k e : Nat) (h : st.entry_point = some e) :
    ∃ out, hnswSearch cfg st dq k = .ok out ∧ (out.map Prod.fst).Nodup := by
  refine ⟨(searchLayer st.nodes dq
    (descendLayers st.nodes dq st.max_layer st.max_layer e) (max cfg.ef_search k) 0).take k,
    by simp only [hnswSearch, h], ?_⟩
  have hnd := (searchLayer_inv st.nodes dq
    (descendLayers st.nodes dq st.max_layer st.max_layer e) (max cfg.ef_search k) 0).2.1
  rw [List.map_take]
  exact hnd.sublist (List.take_sublist _ _)

/-- Witness for C10 at the concrete one-node index. -/
theorem C10_distinct_ids_witness :
    ∃ out, hnswSearch HnswConfig.default hnswOne (fun _ => some 1) 2 = .ok out ∧
      (out.map Prod.fst).Nodup :=
  C10_distinct_ids HnswConfig.default hnswOne (fun _ => some 1) 2 0 rfl

/-! ## Arena bookkeeping lemmas (insert preserves node levels and count) -/

theorem map_set_preserve {α β : Type} (f : α → β) :
    ∀ (l : List α) (i : Nat) (b : α),
      (∀ a, l.get? i = some a → f b = f a) →
      (l.set i b).map f = l.map f
  | [], _, _, _ => rfl
  | x :: xs, 0, b, h => by
    simp only [List.set]
    rw [List.map_cons, List.map_cons, h x rfl]
  | x :: xs, i + 1, b, h => by
    simp only [List.set]
    rw [List.map_cons, List.map_cons, map_set_preserve f xs i b (fun a ha => h a ha)]

theorem setNodeNeighbors_map_max (nodes : List HnswNode) (idx layer : Nat)
    (lst : List Nat) :
    (setNodeNeighbors nodes idx layer lst).map HnswNode.max_layer =
      nodes.map HnswNode.max_layer := by
  rw [setNodeNeighbors]
  cases hget : nodes.get? idx with
  | none => rfl
  | some nd =>
    refine map_set_preserve _ nodes idx _ ?_
    intro a ha
    rw [hget] at ha
    rw [← Option.some.inj ha]

theorem addReverseEdge_map_max (cfg : HnswConfig) (metric : DistanceMetric)
    (storage : Nat → Option (List ℚ)) (nodes : List HnswNode)
    (internal_id layer nid : Nat) :
    (addReverseEdge cfg metric storage nodes internal_id layer nid).map
      HnswNode.max_layer = nodes.map HnswNode.max_layer := by
  rw [addReverseEdge]
  cases hget : nodes.get? nid with
  | none => rfl
  | some nd =>
    dsimp only
    by_cases hlay : layer ≤ nd.max_layer
    · rw [if_pos hlay]
      refine map_set_preserve _ nodes nid _ ?_
      intro a ha
      rw [hget] at ha
      rw [← Option.some.inj ha]
    · rw [if_neg hlay]

theorem revEdgesFold_map_max (cfg : HnswConfig) (metric : DistanceMetric)
    (storage : Nat → Option (List ℚ)) (internal_id layer : Nat) :
    ∀ (sel : List (Nat × DistQ)) (nodes : List HnswNode),
      ((sel.foldl (fun nds c =>
        addReverseEdge cfg metric storage nds internal_id layer c.1) nodes)).map
        HnswNode.max_layer = nodes.map HnswNode.max_layer
  | [], nodes => rfl
  | c :: sel, nodes => by
    rw [List.foldl_cons, revEdgesFold_map_max cfg metric storage internal_id layer sel _,
      addReverseEdge_map_max]

theorem insertAtLayer_map_max (cfg : HnswConfig) (metric : DistanceMetric)
    (storage : Nat → Option (List ℚ)) (dq : Nat → Option ℚ) (internal_id : Nat)
    (acc : List HnswNode × Nat) (layer : Nat) :
    ((insertAtLayer cfg metric storage dq internal_id acc layer).1).map
      HnswNode.max_layer = (acc.1).map HnswNode.max_layer := by
  rw [insertAtLayer]
  cases hsel : (searchLayer acc.1 dq acc.2 cfg.ef_construction layer).take
      (if layer = 0 then cfg.m0 else cfg.m) with
  | nil =>
    dsimp only
    rw [revEdgesFold_map_max, setNodeNeighbors_map_max]
  | cons c sel =>
    dsimp only
    rw [revEdgesFold_map_max, setNodeNeighbors_map_max]

theorem layersFold_map_max (cfg : HnswConfig) (metric : DistanceMetric)
    (storage : Nat → Option (List ℚ)) (dq : Nat → Option ℚ) (internal_id : Nat) :
    ∀ (layers : List Nat) (acc : List HnswNode × Nat),
      ((layers.foldl (insertAtLayer cfg metric storage dq internal_id) acc).1).map
        HnswNode.max_layer = (acc.1).map HnswNode.max_layer
  | [], _ => rfl
  | l :: layers, acc => by
    rw [List.foldl_cons, layersFold_map_max cfg metric storage dq internal_id layers _,
      insertAtLayer_map_max]

theorem foldr_max_init (v : Nat) : ∀ xs : List Nat, xs.foldr max v = max (xs.foldr max 0) v
  | [] => by simp
  | x :: xs => by
    rw [List.foldr_cons, List.foldr_cons, foldr_max_init v xs, Nat.max_assoc]

theorem maxLevel_append_singleton (nodes : List HnswNode) (nd : HnswNode) :
    maxLevel (nodes ++ [nd]) = max (maxLevel nodes) nd.max_layer := by
  rw [maxLevel, List.map_append, List.foldr_append]
  simp only [List.map_cons, List.map_nil, List.foldr_cons, List.foldr_nil]
  rw [foldr_max_init]
  simp [maxLevel, Nat.max_zero]

theorem maxLevel_congr {nodes' nodes : List HnswNode}
    (h : nodes'.map HnswNode.max_layer = nodes.map HnswNode.max_layer) :
    maxLevel nodes' = maxLevel nodes := by
  rw [maxLevel, h, maxLevel]

theorem hnswInsert_none_eq (cfg : HnswConfig) (metric : DistanceMetric)
    (storage : Nat → Option (List ℚ)) (st : HnswState) (id : Nat) (v : List ℚ)
    (lvl : Nat) (hep : st.entry_point = none) :
    hnswInsert cfg metric storage st id v lvl =
      ⟨st.nodes ++ [HnswNode.new id lvl], some id, lvl⟩ := by
  rw [hnswInsert, hep]

theorem hnswInsert_components (cfg : HnswConfig) (metric : DistanceMetric)
    (storage : Nat → Option (List ℚ)) (st : HnswState) (id : Nat) (v : List ℚ)
    (lvl : Nat) (ep : Nat) (hep : st.entry_point = some ep) :
    (hnswInsert cfg metric storage st id v lvl).nodes.map HnswNode.max_layer =
      st.nodes.map HnswNode.max_layer ++ [lvl] ∧
    (hnswInsert cfg metric storage st id v lvl).entry_point =
      (if st.max_layer < lvl then some id else st.entry_point) ∧
    (hnswInsert cfg metric storage st id v lvl).max_layer =
      (if st.max_layer < lvl then lvl else st.max_layer) := by
  rw [hnswInsert, hep]
  dsimp only
  by_cases h : st.max_layer < lvl
  · rw [if_pos h, if_pos h, if_pos h]
    refine ⟨?_, rfl, rfl⟩
    rw [layersFold_map_max]
    simp [HnswNode.new]
  · rw [if_neg h, if_neg h, if_neg h]
    refine ⟨?_, rfl, rfl⟩
    rw [layersFold_map_max]
    simp [HnswNode.new]

theorem hnswInsert_length (cfg : HnswConfig) (metric : DistanceMetric)
    (storage : Nat → Option (List ℚ)) (st : HnswState) (id : Nat) (v : List ℚ)
    (lvl : Nat) :
    (hnswInsert cfg metric storage st id v lvl).nodes.length = st.nodes.length + 1 := by
  cases hep : st.entry_point with
  | none =>
    rw [hnswInsert_none_eq cfg metric storage st id v lvl hep]
    simp
  | some ep =>
    have hmap := (hnswInsert_components cfg metric storage st id v lvl ep hep).1
    rw [← List.length_map (hnswInsert cfg metric storage st id v lvl).nodes
      HnswNode.max_layer, hmap]
    simp

theorem hnswInsert_entry_inv (cfg : HnswConfig) (metric : DistanceMetric)
    (storage : Nat → Option (List ℚ)) (st : HnswState) (v : List ℚ) (lvl : Nat)
    (hinv : entryPointInv st) :
    entryPointInv (hnswInsert cfg metric storage st st.nodes.length v lvl) := by
  cases hep : st.entry_point with
  | none =>
    have hnil : st.nodes = [] := by
      by_contra hne
      have h2 := hinv.1.2 hne
      rw [hep] at h2
      exact absurd h2 (by simp)
    rw [hnswInsert_none_eq cfg metric storage st st.nodes.length v lvl hep]
    refine ⟨by simp [hnil], ?_, ?_⟩
    · intro e he
      have he' : st.nodes.length = e := Option.some.inj he
      refine ⟨HnswNode.new st.nodes.length lvl, ?_, rfl⟩
      rw [← he', hnil]
      rfl
    · intro _
      simp [hnil, maxLevel, HnswNode.new]
  | some ep =>
    obtain ⟨hmap, hent, hmax⟩ :=
      hnswInsert_components cfg metric storage st st.nodes.length v lvl ep hep
    have hne : st.nodes ≠ [] := hinv.1.1 (by rw [hep]; rfl)
    have hml : st.max_layer = maxLevel st.nodes := hinv.2.2 hne
    have hmaxlvl :
        maxLevel (hnswInsert cfg metric storage st st.nodes.length v lvl).nodes =
          max (maxLevel st.nodes) lvl := by
    -- the new arena has the old levels plus `lvl` at the end
      have hcongr :
          maxLevel (hnswInsert cfg metric storage st st.nodes.length v lvl).nodes =
            maxLevel (st.nodes ++ [HnswNode.new st.nodes.length lvl]) := by
        refine maxLevel_congr ?_
        rw [hmap, List.map_append]
        simp [HnswNode.new]
      rw [hcongr, maxLevel_append_singleton]
      rfl
    have hlen : (hnswInsert cfg metric storage st st.nodes.length v lvl).nodes.length =
        st.nodes.length + 1 := hnswInsert_length cfg metric storage st _ v lvl
    refine ⟨⟨?_, ?_⟩, ?_, ?_⟩
    · intro _
      intro hcon
      rw [hcon] at hlen
      simp at hlen
    · intro _
      rw [hent]
      by_cases h : st.max_layer < lvl
      · simp [h]
      · simp [h, hep]
    · intro e he
      rw [hent] at he
      rw [hmax]
      by_cases h : st.max_layer < lvl
      · rw [if_pos h] at he ⊢
        have he' : st.nodes.length = e := Option.some.inj he
        subst he'
        have hgm : ((hnswInsert cfg metric storage st st.nodes.length v lvl).nodes.map
            HnswNode.max_layer).get? st.nodes.length = some lvl := by
          rw [hmap]
          have hlm : (st.nodes.map HnswNode.max_layer).length = st.nodes.length := by simp
          rw [← hlm]
          exact List.get?_concat_length _ _
        rw [List.get?_map] at hgm
        rcases Option.map_eq_some'.1 hgm with ⟨nd, hnd, hfl⟩
        exact ⟨nd, hnd, hfl⟩
      · rw [if_neg h] at he ⊢
        rcases hinv.2.1 e he with ⟨nd, hget, hmaxeq⟩
        have helt : e < st.nodes.length := by
          rcases List.get?_eq_some.1 hget with ⟨hl, _⟩
          exact hl
        have hgm : ((hnswInsert cfg metric storage st st.nodes.length v lvl).nodes.map
            HnswNode.max_layer).get? e = some st.max_layer := by
          rw [hmap, List.get?_append (by simpa using helt), List.get?_map, hget]
          simp [hmaxeq]
        rw [List.get?_map] at hgm
        rcases Option.map_eq_some'.1 hgm with ⟨nd', hnd', hfl⟩
        exact ⟨nd', hnd', hfl⟩
    · intro _
      rw [hmax, hmaxlvl, ← hml]
      by_cases h : st.max_layer < lvl
      · rw [if_pos h]
        exact (Nat.max_eq_right (le_of_lt h)).symm
      · rw [if_neg h]
        exact (Nat.max_eq_left (not_lt.1 h)).symm

theorem runInserts_aux_inv (cfg : HnswConfig) (metric : DistanceMetric) :
    ∀ (inputs : List (List ℚ × Nat)) (rs : RunState),
      rs.hnsw.nodes.length = rs.vecs.length → entryPointInv rs.hnsw →
      (inputs.foldl (runInsertStep cfg metric) rs).hnsw.nodes.length =
        (inputs.foldl (runInsertStep cfg metric) rs).vecs.length ∧
      entryPointInv (inputs.foldl (runInsertStep cfg metric) rs).hnsw
  | [], rs, hlen, hinv => ⟨hlen, hinv⟩
  | inp :: inputs, rs, hlen, hinv => by
    rw [List.foldl_cons]
    refine runInserts_aux_inv cfg metric inputs _ ?_ ?_
    · rw [runInsertStep]
      dsimp only
      rw [hnswInsert_length]
      simp [hlen]
    · rw [runInsertStep]
      dsimp only
      have step := hnswInsert_entry_inv cfg metric
        (storeFn (rs.vecs ++ [inp.1])) rs.hnsw inp.1 inp.2 hinv
      rw [hlen] at step
      exact step

theorem runInserts_vecs_length (cfg : HnswConfig) (metric : DistanceMetric) :
    ∀ (inputs : List (List ℚ × Nat)) (rs : RunState),
      (inputs.foldl (runInsertStep cfg metric) rs).vecs.length =
        rs.vecs.length + inputs.length
  | [], _ => rfl
  | inp :: inputs, rs => by
    rw [List.foldl_cons, runInserts_vecs_length cfg metric inputs _]
    simp [runInsertStep]
    omega

/-! ## C7: the entry-point invariant -/

/-- C7: after any sequence of inserts, the entry point is `some` iff at least one
node has been inserted, and the node it names has `max_layer` equal to the
index's recorded maximum layer, which equals the maximum node level of the
graph. -/
theorem C7_entry_point (cfg : HnswConfig) (metric : DistanceMetric)
    (inputs : List (List ℚ × Nat)) :
    ((runInserts cfg metric inputs).hnsw.entry_point.isSome ↔ inputs ≠ []) ∧
    (∀ e, (runInserts cfg metric inputs).hnsw.entry_point = some e →
      ∃ nd, (runInserts cfg metric inputs).hnsw.nodes.get? e = some nd ∧
        nd.max_layer = (runInserts cfg metric inputs).hnsw.max_layer ∧
        (runInserts cfg metric inputs).hnsw.max_layer =
          maxLevel (runInserts cfg metric inputs).hnsw.nodes) := by
  have hbase : entryPointInv HnswState.new :=
    ⟨⟨fun h => absurd h (by simp [HnswState.new]), fun h => absurd rfl h⟩,
      fun e he => absurd he (by simp [HnswState.new]), fun h => absurd rfl h⟩
  obtain ⟨hlen, hinv⟩ := runInserts_aux_inv cfg metric inputs ⟨[], HnswState.new⟩ rfl hbase
  have hvlen := runInserts_vecs_length cfg metric inputs ⟨[], HnswState.new⟩
  simp only [runInserts]
  have hnl : (inputs.foldl (runInsertStep cfg metric) ⟨[], HnswState.new⟩).hnsw.nodes.length =
      inputs.length := by
    rw [hlen, hvlen]
    simp
  constructor
  · rw [hinv.1]
    constructor
    · intro hne hcon
      rw [hcon] at hne
      exact hne rfl
    · intro hne hcon
      rw [hcon] at hnl
      simp only [List.length_nil] at hnl
      exact hne (List.length_eq_zero.1 hnl.symm)
  · intro e he
    rcases hinv.2.1 e he with ⟨nd, hget, hmax⟩
    have hne : (inputs.foldl (runInsertStep cfg metric) ⟨[], HnswState.new⟩).hnsw.nodes ≠ [] := by
      refine hinv.1.1 ?_
      rw [he]
      rfl
    exact ⟨nd, hget, hmax, hinv.2.2 hne⟩

/-! ## C6: degree bounds — reachability and update lemmas -/

theorem getD_set_cases (l : List (List Nat)) (i j : Nat) (v : List Nat) :
    (j = i ∧ (l.set i v).getD j [] = v) ∨ (l.set i v).getD j [] = l.getD j [] := by
  by_cases h : j = i
  · subst h
    by_cases hl : j < l.length
    · refine Or.inl ⟨rfl, ?_⟩
      rw [List.getD_eq_getElem?_getD, List.getElem?_set_self hl]
      rfl
    · refine Or.inr ?_
      rw [List.set_eq_of_length_le (not_lt.1 hl)]
  · refine Or.inr ?_
    rw [List.getD_eq_getElem?_getD, List.getElem?_set_ne (fun hc => h hc.symm),
      List.getD_eq_getElem?_getD]

theorem memNbr_lt {nodes : List HnswNode} {j n : Nat} (h : memNbr nodes j)
    (hb : nbrsBounded nodes n) : j < n := by
  rcases h with ⟨nd, hnd, layer, hj⟩
  exact hb nd hnd layer j hj

theorem greedyFold_mem (dq : Nat → Option ℚ) :
    ∀ (ns : List Nat) (cur : Nat) (d : DistQ) (ch : Bool),
      (greedyFold dq ns cur d ch).1 = cur ∨ (greedyFold dq ns cur d ch).1 ∈ ns
  | [], cur, d, ch => Or.inl rfl
  | n :: ns, cur, d, ch => by
    rw [greedyFold]
    cases hdq : dq n with
    | none =>
      rcases greedyFold_mem dq ns cur d ch with h | h
      · exact Or.inl h
      · exact Or.inr (List.mem_cons_of_mem n h)
    | some q =>
      dsimp only
      by_cases hlt : (q : DistQ) < d
      · rw [if_pos hlt]
        rcases greedyFold_mem dq ns n (q : DistQ) true with h | h
        · rw [h]
          exact Or.inr (List.mem_cons_self n ns)
        · exact Or.inr (List.mem_cons_of_mem n h)
      · rw [if_neg hlt]
        rcases greedyFold_mem dq ns cur d ch with h | h
        · exact Or.inl h
        · exact Or.inr (List.mem_cons_of_mem n h)

theorem searchLayerSingleLoop_mem (nodes : List HnswNode) (dq : Nat → Option ℚ)
    (layer : Nat) :
    ∀ (fuel cur : Nat) (d : DistQ),
      searchLayerSingleLoop nodes dq layer fuel cur d = cur ∨
        memNbr nodes (searchLayerSingleLoop nodes dq layer fuel cur d)
  | 0, cur, d => Or.inl rfl
  | fuel + 1, cur, d => by
    rw [searchLayerSingleLoop]
    cases hget : nodes.get? cur with
    | none => exact Or.inl rfl
    | some node =>
      dsimp only
      by_cases hlay : layer ≤ node.max_layer
      · rw [if_pos hlay]
        have hgf := greedyFold_mem dq (node.neighbors.getD layer []) cur d false
        cases hch : (greedyFold dq (node.neighbors.getD layer []) cur d false).2.2 with
        | false =>
          rw [if_neg Bool.false_ne_true]
          rcases hgf with h | h
          · exact Or.inl h
          · exact Or.inr ⟨node, List.get?_mem hget, layer, h⟩
        | true =>
          rw [if_pos rfl]
          rcases searchLayerSingleLoop_mem nodes dq layer fuel
              (greedyFold dq (node.neighbors.getD layer []) cur d false).1
              (greedyFold dq (node.neighbors.getD layer []) cur d false).2.1 with h | h
          · rw [h]
            rcases hgf with h2 | h2
            · exact Or.inl h2
            · exact Or.inr ⟨node, List.get?_mem hget, layer, h2⟩
          · exact Or.inr h
      · rw [if_neg hlay]
        exact Or.inl rfl

theorem searchLayerSingle_mem (nodes : List HnswNode) (dq : Nat → Option ℚ)
    (entry layer : Nat) :
    searchLayerSingle nodes dq entry layer = entry ∨
      memNbr nodes (searchLayerSingle nodes dq entry layer) :=
  searchLayerSingleLoop_mem nodes dq layer (nodes.length + 1) entry (toDist (dq entry))

theorem descendLayers_mem (nodes : List HnswNode) (dq : Nat → Option ℚ) :
    ∀ (top cnt ep : Nat),
      descendLayers nodes dq top cnt ep = ep ∨
        memNbr nodes (descendLayers nodes dq top cnt ep)
  | _, 0, ep => Or.inl rfl
  | top, cnt + 1, ep => by
    rw [descendLayers]
    rcases descendLayers_mem nodes dq (top - 1) cnt (searchLayerSingle nodes dq ep top)
        with h | h
    · rw [h]
      exact searchLayerSingle_mem nodes dq ep top
    · exact Or.inr h

theorem set_node_list_bounds (cfg : HnswConfig) (nodes : List HnswNode)
    (nid layer : Nat) (nd : HnswNode) (pruned : List Nat) (n : Nat)
    (hget : nodes.get? nid = some nd)
    (hb : nbrsBounded nodes n) (hd : degsBounded cfg nodes)
    (hpb : ∀ j ∈ pruned, j < n) (hpl : pruned.length ≤ degreeCap cfg layer) :
    nbrsBounded (nodes.set nid { nd with neighbors := nd.neighbors.set layer pruned }) n ∧
    degsBounded cfg (nodes.set nid { nd with neighbors := nd.neighbors.set layer pruned }) := by
  constructor
  · intro nd' hnd' layer' j hj
    rcases List.mem_or_eq_of_mem_set hnd' with h | h
    · exact hb nd' h layer' j hj
    · subst h
      rcases getD_set_cases nd.neighbors layer layer' pruned with ⟨_, heq⟩ | heq
      · rw [heq] at hj
        exact hpb j hj
      · rw [heq] at hj
        exact hb nd (List.get?_mem hget) layer' j hj
  · intro nd' hnd' layer'
    rcases List.mem_or_eq_of_mem_set hnd' with h | h
    · exact hd nd' h layer'
    · subst h
      rcases getD_set_cases nd.neighbors layer layer' pruned with ⟨hl, heq⟩ | heq
      · rw [heq, hl]
        exact hpl
      · rw [heq]
        exact hd nd (List.get?_mem hget) layer'

theorem setNodeNeighbors_bounds (cfg : HnswConfig) (nodes : List HnswNode)
    (idx layer : Nat) (lst : List Nat) (n : Nat)
    (hb : nbrsBounded nodes n) (hd : degsBounded cfg nodes)
    (hlst : ∀ j ∈ lst, j < n) (hlen : lst.length ≤ degreeCap cfg layer) :
    nbrsBounded (setNodeNeighbors nodes idx layer lst) n ∧
    degsBounded cfg (setNodeNeighbors nodes idx layer lst) := by
  rw [setNodeNeighbors]
  cases hget : nodes.get? idx with
  | none => exact ⟨hb, hd⟩
  | some nd => exact set_node_list_bounds cfg nodes idx layer nd lst n hget hb hd hlst hlen

theorem addReverseEdge_bounds (cfg : HnswConfig) (metric : DistanceMetric)
    (storage : Nat → Option (List ℚ)) (nodes : List HnswNode)
    (internal_id layer nid n : Nat)
    (hb : nbrsBounded nodes n) (hd : degsBounded cfg nodes)
    (hid : internal_id < n) (hstore : (storage nid).isSome) :
    nbrsBounded (addReverseEdge cfg metric storage nodes internal_id layer nid) n ∧
    degsBounded cfg (addReverseEdge cfg metric storage nodes internal_id layer nid) := by
  rw [addReverseEdge]
  cases hget : nodes.get? nid with
  | none => exact ⟨hb, hd⟩
  | some nd =>
    dsimp only
    by_cases hlay : layer ≤ nd.max_layer
    · rw [if_pos hlay]
      have hnewb : ∀ j ∈ nd.neighbors.getD layer [] ++ [internal_id], j < n := by
        intro j hj
        rcases List.mem_append.1 hj with h | h
        · exact hb nd (List.get?_mem hget) layer j h
        · rw [List.mem_singleton.1 h]
          exact hid
      rcases Option.isSome_iff_exists.1 hstore with ⟨nv, hnv⟩
      rw [hnv]
      by_cases hover : (if layer = 0 then cfg.m0 else cfg.m) <
          (nd.neighbors.getD layer [] ++ [internal_id]).length
      · rw [if_pos hover]
        dsimp only
        refine set_node_list_bounds cfg nodes nid layer nd _ n hget hb hd ?_ ?_
        · intro j hj
          rcases List.mem_map.1 hj with ⟨p, hp, hpj⟩
          have hp2 : p ∈ sortByDist ((nd.neighbors.getD layer [] ++ [internal_id]).filterMap
              (fun j => (storage j).map (fun vj => (j, metric.distance nv vj)))) :=
            List.mem_of_mem_take hp
          have hp3 := (mem_sortByDist p _).1 hp2
          rcases List.mem_filterMap.1 hp3 with ⟨j', hj', hjeq⟩
          rcases Option.map_eq_some'.1 hjeq with ⟨vj, _, hpair⟩
          have : p.1 = j' := by rw [← hpair]
          rw [← hpj, this]
          exact hnewb j' hj'
        · rw [List.length_map, List.length_take]
          exact le_trans (min_le_left _ _) (le_of_eq rfl)
      · rw [if_neg hover]
        refine set_node_list_bounds cfg nodes nid layer nd _ n hget hb hd hnewb ?_
        exact not_lt.1 hover
    · rw [if_neg hlay]
      exact ⟨hb, hd⟩

theorem revEdgesFold_bounds (cfg : HnswConfig) (metric : DistanceMetric)
    (storage : Nat → Option (List ℚ)) (internal_id layer n : Nat) :
    ∀ (sel : List (Nat × DistQ)) (nodes : List HnswNode),
      nbrsBounded nodes n → degsBounded cfg nodes →
      (∀ c ∈ sel, c.1 < n) → internal_id < n →
      (∀ i, i < n → (storage i).isSome) →
      nbrsBounded ((sel.foldl (fun nds c =>
        addReverseEdge cfg metric storage nds internal_id layer c.1) nodes)) n ∧
      degsBounded cfg ((sel.foldl (fun nds c =>
        addReverseEdge cfg metric storage nds internal_id layer c.1) nodes))
  | [], nodes, hb, hd, _, _, _ => ⟨hb, hd⟩
  | c :: sel, nodes, hb, hd, hsel, hid, hstore => by
    rw [List.foldl_cons]
    have hc : c.1 < n := hsel c (List.mem_cons_self c sel)
    obtain ⟨hb', hd'⟩ := addReverseEdge_bounds cfg metric storage nodes internal_id
      layer c.1 n hb hd hid (hstore c.1 hc)
    exact revEdgesFold_bounds cfg metric storage internal_id layer n sel _ hb' hd'
      (fun c' hc' => hsel c' (List.mem_cons_of_mem c hc')) hid hstore

theorem insertAtLayer_bounds (cfg : HnswConfig) (metric : DistanceMetric)
    (storage : Nat → Option (List ℚ)) (dq : Nat → Option ℚ) (internal_id n : Nat)
    (acc : List HnswNode × Nat) (layer : Nat)
    (hb : nbrsBounded acc.1 n) (hd : degsBounded cfg acc.1)
    (hep : acc.2 < n) (hid : internal_id < n)
    (hstore : ∀ i, i < n → (storage i).isSome) :
    nbrsBounded (insertAtLayer cfg metric storage dq internal_id acc layer).1 n ∧
    degsBounded cfg (insertAtLayer cfg metric storage dq internal_id acc layer).1 ∧
    (insertAtLayer cfg metric storage dq internal_id acc layer).2 < n := by
  rw [insertAtLayer]
  have hfound : ∀ p ∈ searchLayer acc.1 dq acc.2 cfg.ef_construction layer, p.1 < n := by
    intro p hp
    rcases (searchLayer_inv acc.1 dq acc.2 cfg.ef_construction layer).1 p hp with h | h
    · rw [h]
      exact hep
    · exact memNbr_lt h hb
  have hselb : ∀ p ∈ (searchLayer acc.1 dq acc.2 cfg.ef_construction layer).take
      (if layer = 0 then cfg.m0 else cfg.m), p.1 < n :=
    fun p hp => hfound p (List.mem_of_mem_take hp)
  have hsellen : (((searchLayer acc.1 dq acc.2 cfg.ef_construction layer).take
      (if layer = 0 then cfg.m0 else cfg.m)).map Prod.fst).length ≤ degreeCap cfg layer := by
    rw [List.length_map, List.length_take]
    exact min_le_left _ _
  cases hsel : (searchLayer acc.1 dq acc.2 cfg.ef_construction layer).take
      (if layer = 0 then cfg.m0 else cfg.m) with
  | nil =>
    dsimp only
    obtain ⟨hb1, hd1⟩ := setNodeNeighbors_bounds cfg acc.1 internal_id layer [] n hb hd
      (by intro j hj; exact absurd hj (List.not_mem_nil j)) (Nat.zero_le _)
    exact ⟨hb1, hd1, hep⟩
  | cons c sel =>
    dsimp only
    rw [hsel] at hselb hsellen
    have hlst : ∀ j ∈ (c :: sel).map Prod.fst, j < n := by
      intro j hj
      rcases List.mem_map.1 hj with ⟨p, hp, hpj⟩
      rw [← hpj]
      exact hselb p hp
    obtain ⟨hb1, hd1⟩ := setNodeNeighbors_bounds cfg acc.1 internal_id layer
      ((c :: sel).map Prod.fst) n hb hd hlst hsellen
    obtain ⟨hb2, hd2⟩ := revEdgesFold_bounds cfg metric storage internal_id layer n
      (c :: sel) _ hb1 hd1 hselb hid hstore
    exact ⟨hb2, hd2, hselb c (List.mem_cons_self c sel)⟩

theorem layersFold_bounds (cfg : HnswConfig) (metric : DistanceMetric)
    (storage : Nat → Option (List ℚ)) (dq : Nat → Option ℚ) (internal_id n : Nat)
    (hid : internal_id < n) (hstore : ∀ i, i < n → (storage i).isSome) :
    ∀ (layers : List Nat) (acc : List HnswNode × Nat),
      nbrsBounded acc.1 n → degsBounded cfg acc.1 → acc.2 < n →
      nbrsBounded ((layers.foldl (insertAtLayer cfg metric storage dq internal_id) acc)).1 n ∧
      degsBounded cfg ((layers.foldl (insertAtLayer cfg metric storage dq internal_id) acc)).1 ∧
      ((layers.foldl (insertAtLayer cfg metric storage dq internal_id) acc)).2 < n
  | [], acc, hb, hd, hep => ⟨hb, hd, hep⟩
  | l :: layers, acc, hb, hd, hep => by
    rw [List.foldl_cons]
    obtain ⟨hb1, hd1, hep1⟩ := insertAtLayer_bounds cfg metric storage dq internal_id n
      acc l hb hd hep hid hstore
    exact layersFold_bounds cfg metric storage dq internal_id n hid hstore layers _ hb1 hd1 hep1

theorem newNode_getD_nil (id lvl layer : Nat) :
    ((HnswNode.new id lvl).neighbors).getD layer [] = [] := by
  rw [HnswNode.new]
  dsimp only
  rw [List.getD_eq_getElem?_getD, List.getElem?_replicate]
  by_cases h : layer < lvl + 1
  · rw [if_pos h]
    rfl
  · rw [if_neg h]
    rfl

theorem hnswInsert_bounds (cfg : HnswConfig) (metric : DistanceMetric)
    (storage : Nat → Option (List ℚ)) (st : HnswState) (v : List ℚ) (lvl : Nat)
    (hb : nbrsBounded st.nodes st.nodes.length)
    (hd : degsBounded cfg st.nodes)
    (hep : ∀ e, st.entry_point = some e → e < st.nodes.length)
    (hstore : ∀ i, i < st.nodes.length + 1 → (storage i).isSome) :
    nbrsBounded (hnswInsert cfg metric storage st st.nodes.length v lvl).nodes
      (st.nodes.length + 1) ∧
    degsBounded cfg (hnswInsert cfg metric storage st st.nodes.length v lvl).nodes ∧
    (∀ e, (hnswInsert cfg metric storage st st.nodes.length v lvl).entry_point = some e →
      e < st.nodes.length + 1) := by
  have hb0 : nbrsBounded (st.nodes ++ [HnswNode.new st.nodes.length lvl])
      (st.nodes.length + 1) := by
    intro nd hnd layer j hj
    rcases List.mem_append.1 hnd with h | h
    · exact Nat.lt_succ_of_lt (hb nd h layer j hj)
    · rw [List.mem_singleton.1 h, newNode_getD_nil] at hj
      exact absurd hj (List.not_mem_nil j)
  have hd0 : degsBounded cfg (st.nodes ++ [HnswNode.new st.nodes.length lvl]) := by
    intro nd hnd layer
    rcases List.mem_append.1 hnd with h | h
    · exact hd nd h layer
    · rw [List.mem_singleton.1 h, newNode_getD_nil]
      exact Nat.zero_le _
  rw [hnswInsert]
  cases hepc : st.entry_point with
  | none =>
    dsimp only
    refine ⟨hb0, hd0, ?_⟩
    intro e he
    rw [← Option.some.inj he]
    exact Nat.lt_succ_self _
  | some ep =>
    dsimp only
    have hce : descendLayers (st.nodes ++ [HnswNode.new st.nodes.length lvl])
        (fun i => (storage i).map (metric.distance v)) st.max_layer
        (st.max_layer - lvl) ep < st.nodes.length + 1 := by
      rcases descendLayers_mem (st.nodes ++ [HnswNode.new st.nodes.length lvl])
          (fun i => (storage i).map (metric.distance v)) st.max_layer
          (st.max_layer - lvl) ep with h | h
      · rw [h]
        exact Nat.lt_succ_of_lt (hep ep hepc)
      · exact memNbr_lt h hb0
    obtain ⟨hb2, hd2, hep2⟩ := layersFold_bounds cfg metric storage
      (fun i => (storage i).map (metric.distance v)) st.nodes.length
      (st.nodes.length + 1) (Nat.lt_succ_self _) hstore
      ((List.range (min lvl st.max_layer + 1)).reverse)
      (st.nodes ++ [HnswNode.new st.nodes.length lvl],
        descendLayers (st.nodes ++ [HnswNode.new st.nodes.length lvl])
          (fun i => (storage i).map (metric.distance v)) st.max_layer
          (st.max_layer - lvl) ep) hb0 hd0 hce
    by_cases hmax : st.max_layer < lvl
    · rw [if_pos hmax]
      refine ⟨hb2, hd2, ?_⟩
      intro e he
      rw [← Option.some.inj he]
      exact Nat.lt_succ_self _
    · rw [if_neg hmax]
      refine ⟨hb2, hd2, ?_⟩
      intro e he
      have he' : ep = e := Option.some.inj he
      rw [← he']
      exact Nat.lt_succ_of_lt (hep ep hepc)

theorem runInserts_aux_bounds (cfg : HnswConfig) (metric : DistanceMetric) :
    ∀ (inputs : List (List ℚ × Nat)) (rs : RunState),
      rs.hnsw.nodes.length = rs.vecs.length →
      nbrsBounded rs.hnsw.nodes rs.vecs.length →
      degsBounded cfg rs.hnsw.nodes →
      (∀ e, rs.hnsw.entry_point = some e → e < rs.vecs.length) →
      degsBounded cfg (inputs.foldl (runInsertStep cfg metric) rs).hnsw.nodes
  | [], _, _, _, hd, _ => hd
  | inp :: inputs, rs, hlen, hb, hd, hep => by
    rw [List.foldl_cons]
    have hstore : ∀ i, i < rs.hnsw.nodes.length + 1 →
        ((storeFn (rs.vecs ++ [inp.1])) i).isSome := by
      intro i hi
      rw [storeFn, List.get?_eq_getElem?,
        List.getElem?_eq_getElem (by rw [List.length_append, List.length_singleton, ← hlen]; exact hi)]
      rfl
    rw [← hlen] at hb hep
    obtain ⟨hb', hd', hep'⟩ := hnswInsert_bounds cfg metric
      (storeFn (rs.vecs ++ [inp.1])) rs.hnsw inp.1 inp.2 hb hd hep hstore
    have hlen' := hnswInsert_length cfg metric (storeFn (rs.vecs ++ [inp.1]))
      rs.hnsw rs.hnsw.nodes.length inp.1 inp.2
    refine runInserts_aux_bounds cfg metric inputs _ ?_ ?_ ?_ ?_
    · rw [runInsertStep]
      dsimp only
      rw [← hlen]
      simp only [hlen', List.length_append, List.length_singleton]
      rw [hlen]
    · rw [runInsertStep]
      dsimp only
      rw [List.length_append, List.length_singleton, ← hlen]
      exact hb'
    · rw [runInsertStep]
      dsimp only
      rw [← hlen]
      exact hd'
    · rw [runInsertStep]
      dsimp only
      rw [List.length_append, List.length_singleton, ← hlen]
      exact hep'

/-! ## C6: the degree bounds -/

/-- C6: after any sequence of inserts through the storage-backed harness (each
inserted id has its vector in storage), every node's neighbor list has length at
most `M` at every layer `ℓ ≥ 1` and at most `M0` at layer 0. -/
theorem C6_degree_bounds (cfg : HnswConfig) (metric : DistanceMetric)
    (inputs : List (List ℚ × Nat)) :
    degreesBounded cfg (runInserts cfg metric inputs).hnsw := by
  rw [degreesBounded, runInserts]
  refine runInserts_aux_bounds cfg metric inputs ⟨[], HnswState.new⟩ rfl ?_ ?_ ?_
  · intro nd hnd
    exact absurd hnd (List.not_mem_nil nd)
  · intro nd hnd
    exact absurd hnd (List.not_mem_nil nd)
  · intro e he
    exact absurd he (by simp [HnswState.new])
